import Mathlib

/-!
Verification of the motion-smoothing core (smoother kernels, weighted
integration, extruder pressure advance) against its C sources
(`integrate.c`, `kin_extruder.c`, the smooth-axis kinematic filter) using a
shallow embedding over the reals.
-/

open MeasureTheory intervalIntegral

set_option linter.unusedVariables false

noncomputable section

/-! ## Smoother kernel model (`integrate.c`, richest `integrate.h` variant)

The `integrate_cb` function pointer ranges over exactly three callbacks
(`integrate_2th_order`, `integrate_4th_order`, `integrate_6th_order`), so it
is embedded as a three-valued tag dispatched by `apply_integrate_cb`. -/

inductive integrate_callback where
  | order2 : integrate_callback
  | order4 : integrate_callback
  | order6 : integrate_callback

structure smoother where
  c6 : ℝ
  c4 : ℝ
  c2 : ℝ
  c0 : ℝ
  integrate_cb : integrate_callback
  hst : ℝ

/-- `i2wt0`: antiderivative of `t^0 * w` for a 2nd-order `w`, Horner form. -/
def i2wt0 (sm : smoother) (t : ℝ) : ℝ :=
  let t2 := t * t
  let v := (1/3) * sm.c2
  let v := sm.c0 + v * t2
  v * t

/-- `i2wt1`: antiderivative of `t^1 * w` for a 2nd-order `w`, Horner form. -/
def i2wt1 (sm : smoother) (t : ℝ) : ℝ :=
  let t2 := t * t
  let v := (1/4) * sm.c2
  let v := (1/2) * sm.c0 + v * t2
  v * t2

/-- `i2wt2`: antiderivative of `t^2 * w` for a 2nd-order `w`, Horner form. -/
def i2wt2 (sm : smoother) (t : ℝ) : ℝ :=
  let t2 := t * t
  let v := (1/5) * sm.c2
  let v := (1/3) * sm.c0 + v * t2
  v * t2 * t

def integrate_2th_order (sm : smoother) (start e a0 a1 a2 : ℝ) : ℝ :=
  let res := a2 * (i2wt2 sm e - i2wt2 sm start)
  let res := res + a1 * (i2wt1 sm e - i2wt1 sm start)
  let res := res + a0 * (i2wt0 sm e - i2wt0 sm start)
  res

/-- `i4wt0`: antiderivative of `t^0 * w` for a 4th-order `w`, Horner form. -/
def i4wt0 (sm : smoother) (t : ℝ) : ℝ :=
  let t2 := t * t
  let v := (1/5) * sm.c4
  let v := (1/3) * sm.c2 + v * t2
  let v := sm.c0 + v * t2
  v * t

/-- `i4wt1`: antiderivative of `t^1 * w` for a 4th-order `w`, Horner form. -/
def i4wt1 (sm : smoother) (t : ℝ) : ℝ :=
  let t2 := t * t
  let v := (1/6) * sm.c4
  let v := (1/4) * sm.c2 + v * t2
  let v := (1/2) * sm.c0 + v * t2
  v * t2

/-- `i4wt2`: antiderivative of `t^2 * w` for a 4th-order `w`, Horner form. -/
def i4wt2 (sm : smoother) (t : ℝ) : ℝ :=
  let t2 := t * t
  let v := (1/7) * sm.c4
  let v := (1/5) * sm.c2 + v * t2
  let v := (1/3) * sm.c0 + v * t2
  v * t2 * t

def integrate_4th_order (sm : smoother) (start e a0 a1 a2 : ℝ) : ℝ :=
  let res := a2 * (i4wt2 sm e - i4wt2 sm start)
  let res := res + a1 * (i4wt1 sm e - i4wt1 sm start)
  let res := res + a0 * (i4wt0 sm e - i4wt0 sm start)
  res

/-- `i6wt0`: antiderivative of `t^0 * w` for a 6th-order `w`, Horner form. -/
def i6wt0 (sm : smoother) (t : ℝ) : ℝ :=
  let t2 := t * t
  let v := (1/7) * sm.c6
  let v := (1/5) * sm.c4 + v * t2
  let v := (1/3) * sm.c2 + v * t2
  let v := sm.c0 + v * t2
  v * t

/-- `i6wt1`: antiderivative of `t^1 * w` for a 6th-order `w`, Horner form. -/
def i6wt1 (sm : smoother) (t : ℝ) : ℝ :=
  let t2 := t * t
  let v := (1/8) * sm.c6
  let v := (1/6) * sm.c4 + v * t2
  let v := (1/4) * sm.c2 + v * t2
  let v := (1/2) * sm.c0 + v * t2
  v * t2

/-- `i6wt2`: antiderivative of `t^2 * w` for a 6th-order `w`, Horner form. -/
def i6wt2 (sm : smoother) (t : ℝ) : ℝ :=
  let t2 := t * t
  let v := (1/9) * sm.c6
  let v := (1/7) * sm.c4 + v * t2
  let v := (1/5) * sm.c2 + v * t2
  let v := (1/3) * sm.c0 + v * t2
  v * t2 * t

def integrate_6th_order (sm : smoother) (start e a0 a1 a2 : ℝ) : ℝ :=
  let res := a2 * (i6wt2 sm e - i6wt2 sm start)
  let res := res + a1 * (i6wt1 sm e - i6wt1 sm start)
  let res := res + a0 * (i6wt0 sm e - i6wt0 sm start)
  res

/-- Dispatch through the `integrate_cb` member. -/
def apply_integrate_cb (sm : smoother) (start e a0 a1 a2 : ℝ) : ℝ :=
  match sm.integrate_cb with
  | .order2 => integrate_2th_order sm start e a0 a1 a2
  | .order4 => integrate_4th_order sm start e a0 a1 a2
  | .order6 => integrate_6th_order sm start e a0 a1 a2

/-- `integrate_weighted`: integrate `pos + start_v*t + half_accel*t^2` against
the smoothing weight over `[start, end]`, substituting `tnew = t + toff`
before dispatching to the family callback. -/
def integrate_weighted (sm : smoother) (pos start_v half_accel start e toff : ℝ) : ℝ :=
  let pos := pos + (half_accel * toff - start_v) * toff
  let start_v := start_v - 2 * half_accel * toff
  let start := start + toff
  let e := e + toff
  apply_integrate_cb sm start e pos start_v half_accel

/-- The even weight polynomial `w(τ) = c0 + c2 τ² + c4 τ⁴ + c6 τ⁶` of a
smoother (lower-order families carry zeros in the unused coefficients). -/
def smoother_weight (sm : smoother) (τ : ℝ) : ℝ :=
  sm.c0 + sm.c2 * τ^2 + sm.c4 * τ^4 + sm.c6 * τ^6

/-! ## A fundamental-theorem-of-calculus helper for degree ≤ 8 polynomials -/

theorem hasDerivAt_poly8 (k0 k1 k2 k3 k4 k5 k6 k7 k8 x : ℝ) :
    HasDerivAt (fun y : ℝ => k0*y^1 + k1/2*y^2 + k2/3*y^3 + k3/4*y^4 + k4/5*y^5
        + k5/6*y^6 + k6/7*y^7 + k7/8*y^8 + k8/9*y^9)
      (k0 + k1*x + k2*x^2 + k3*x^3 + k4*x^4 + k5*x^5 + k6*x^6 + k7*x^7 + k8*x^8) x := by
  have h := (((((((((hasDerivAt_pow 1 x).const_mul k0).add
    ((hasDerivAt_pow 2 x).const_mul (k1/2))).add
    ((hasDerivAt_pow 3 x).const_mul (k2/3))).add
    ((hasDerivAt_pow 4 x).const_mul (k3/4))).add
    ((hasDerivAt_pow 5 x).const_mul (k4/5))).add
    ((hasDerivAt_pow 6 x).const_mul (k5/6))).add
    ((hasDerivAt_pow 7 x).const_mul (k6/7))).add
    ((hasDerivAt_pow 8 x).const_mul (k7/8))).add
    ((hasDerivAt_pow 9 x).const_mul (k8/9))
  convert h using 1
  push_cast
  ring

theorem integral_poly8 (k0 k1 k2 k3 k4 k5 k6 k7 k8 a b : ℝ) :
    (∫ x in a..b, (k0 + k1*x + k2*x^2 + k3*x^3 + k4*x^4 + k5*x^5 + k6*x^6 + k7*x^7 + k8*x^8))
    = (k0*b^1 + k1/2*b^2 + k2/3*b^3 + k3/4*b^4 + k4/5*b^5 + k5/6*b^6 + k6/7*b^7
        + k7/8*b^8 + k8/9*b^9)
      - (k0*a^1 + k1/2*a^2 + k2/3*a^3 + k3/4*a^4 + k4/5*a^5 + k5/6*a^6 + k6/7*a^7
        + k7/8*a^8 + k8/9*a^9) := by
  have hi : IntervalIntegrable
      (fun x : ℝ => k0 + k1*x + k2*x^2 + k3*x^3 + k4*x^4 + k5*x^5 + k6*x^6 + k7*x^7 + k8*x^8)
      volume a b := by
    apply Continuous.intervalIntegrable
    fun_prop
  exact intervalIntegral.integral_eq_sub_of_hasDerivAt
    (fun x _ => hasDerivAt_poly8 k0 k1 k2 k3 k4 k5 k6 k7 k8 x) hi

/-- The 6th-order family callback computes the exact weighted integral of a
quadratic against the weight polynomial. -/
theorem integrate_6th_order_eq_integral (sm : smoother) (a0 a1 a2 a b : ℝ) :
    integrate_6th_order sm a b a0 a1 a2
      = ∫ u in a..b, (a0 + a1*u + a2*u^2) * smoother_weight sm u := by
  have hfun : (fun u : ℝ => (a0 + a1*u + a2*u^2) * smoother_weight sm u)
      = fun u : ℝ => (a0*sm.c0) + (a1*sm.c0)*u + (a2*sm.c0 + a0*sm.c2)*u^2
        + (a1*sm.c2)*u^3 + (a2*sm.c2 + a0*sm.c4)*u^4 + (a1*sm.c4)*u^5
        + (a2*sm.c4 + a0*sm.c6)*u^6 + (a1*sm.c6)*u^7 + (a2*sm.c6)*u^8 := by
    funext u
    simp only [smoother_weight]
    ring
  rw [hfun, integral_poly8]
  simp only [integrate_6th_order, i6wt0, i6wt1, i6wt2]
  ring

/-- C1: `integrate_weighted(sm, p0, v0, ha, start, end, toff)` equals the
definite integral from `start` to `end` of `(p0 + v0·t + ha·t²) · w(t + toff)`
where `w` is the smoother's even weight polynomial, provided the coefficients
unused by the dispatched family callback are zero (as they are for every
catalog kernel). -/
theorem integrate_weighted_eq_integral (sm : smoother) (p0 v0 ha start e toff : ℝ)
    (hz : match sm.integrate_cb with
          | .order2 => sm.c4 = 0 ∧ sm.c6 = 0
          | .order4 => sm.c6 = 0
          | .order6 => True) :
    integrate_weighted sm p0 v0 ha start e toff
      = ∫ t in start..e, (p0 + v0*t + ha*t^2) * smoother_weight sm (t + toff) := by
  have hfun : (fun t : ℝ => (p0 + v0*t + ha*t^2) * smoother_weight sm (t + toff))
      = fun t : ℝ => (fun u : ℝ =>
          ((p0 + (ha * toff - v0) * toff) + (v0 - 2*ha*toff)*u + ha*u^2)
            * smoother_weight sm u) (t + toff) := by
    funext t
    ring_nf
  have hsub :
      (∫ t in start..e, (fun u : ℝ =>
          ((p0 + (ha * toff - v0) * toff) + (v0 - 2*ha*toff)*u + ha*u^2)
            * smoother_weight sm u) (t + toff))
      = ∫ u in (start + toff)..(e + toff),
          ((p0 + (ha * toff - v0) * toff) + (v0 - 2*ha*toff)*u + ha*u^2)
            * smoother_weight sm u :=
    intervalIntegral.integral_comp_add_right
      (fun u : ℝ => ((p0 + (ha * toff - v0) * toff) + (v0 - 2*ha*toff)*u + ha*u^2)
        * smoother_weight sm u) toff
  rw [hfun, hsub, ← integrate_6th_order_eq_integral]
  simp only [integrate_weighted, apply_integrate_cb]
  cases hcb : sm.integrate_cb with
  | order2 =>
      rw [hcb] at hz
      obtain ⟨h4, h6⟩ := hz
      simp only [integrate_2th_order, integrate_6th_order, i2wt0, i2wt1, i2wt2,
        i6wt0, i6wt1, i6wt2, h4, h6]
      ring
  | order4 =>
      rw [hcb] at hz
      simp only [integrate_4th_order, integrate_6th_order, i4wt0, i4wt1, i4wt2,
        i6wt0, i6wt1, i6wt2, hz]
      ring
  | order6 =>
      simp only [integrate_6th_order, i6wt0, i6wt1, i6wt2]

/-! ## Smoother-specific initialization (`integrate.c`) -/

/-- `init_2ord_shortest`: shortest smoother reducing vibrations to 0 at the
target frequency which does not excite higher-frequency vibrations. The
`c4`/`c6` fields stay at the `memset` zero. -/
def init_2ord_shortest (target_freq damping_ratio : ℝ) : smoother :=
  let hst := 0.29630246 / target_freq
  let v := 1 / hst
  let inv_hst2 := v * v
  let c0 := 0.2183076974181258 * v
  let v := v * inv_hst2
  let c2 := 2.154923092254376 * v
  { c6 := 0, c4 := 0, c2 := c2, c0 := c0, integrate_cb := .order2, hst := hst }

/-- `init_2ord_allp`: smoother reducing vibrations to 0 at target frequency. -/
def init_2ord_allp (target_freq damping_ratio : ℝ) : smoother :=
  let hst := 0.331293106 / target_freq
  let v := 1 / hst
  let inv_hst2 := v * v
  let c0 := (0 : ℝ)
  let v := v * inv_hst2
  let c2 := 1.5 * v
  { c6 := 0, c4 := 0, c2 := c2, c0 := c0, integrate_cb := .order2, hst := hst }

/-- `init_sifp_05`: SI-type, 5% vibration tolerance, full period duration. -/
def init_sifp_05 (target_freq damping_ratio : ℝ) : smoother :=
  let hst := 0.5 / target_freq
  let v := 1 / hst
  let inv_hst2 := v * v
  let c0 := 1.226407107944368 * v
  let v := v * inv_hst2
  let c2 := -9.681726703406114 * v
  let v := v * inv_hst2
  let c4 := 12.50417563262201 * v
  { c6 := 0, c4 := c4, c2 := c2, c0 := c0, integrate_cb := .order4, hst := hst }

/-- `init_siaf_05`: 4th-order positive smoother, 5% vibration tolerance. -/
def init_siaf_05 (target_freq damping_ratio : ℝ) : smoother :=
  let hst := 0.682156695 / target_freq
  let v := 1 / hst
  let inv_hst2 := v * v
  let c0 := 0.7264076297522936 * v
  let v := v * inv_hst2
  let c2 := -1.00906293169719 * v
  let v := v * inv_hst2
  let c4 := 0.5497334040671973 * v
  { c6 := 0, c4 := c4, c2 := c2, c0 := c0, integrate_cb := .order4, hst := hst }

/-- `init_dfsf_05`: acceleration displacement-free smoother, 5% tolerance. -/
def init_dfsf_05 (target_freq damping_ratio : ℝ) : smoother :=
  let hst := 0.879442505 / target_freq
  let v := 1 / hst
  let inv_hst2 := v * v
  let c0 := 1.693005551405153 * v
  let v := v * inv_hst2
  let c2 := -18.8720117988809 * v
  let v := v * inv_hst2
  let c4 := 59.4391940955727 * v
  let v := v * inv_hst2
  let c6 := -47.53121639625473 * v
  { c6 := c6, c4 := c4, c2 := c2, c0 := c0, integrate_cb := .order6, hst := hst }

/-- `init_dfaf_05`: acceleration displacement-free smoother, 5% tolerance. -/
def init_dfaf_05 (target_freq damping_ratio : ℝ) : smoother :=
  let hst := 1.089438525 / target_freq
  let v := 1 / hst
  let inv_hst2 := v * v
  let c0 := 1.42427487336909 * v
  let v := v * inv_hst2
  let c2 := -5.783771970272312 * v
  let v := v * inv_hst2
  let c4 := 7.766315293352271 * v
  let v := v * inv_hst2
  let c6 := -3.847297593641651 * v
  { c6 := c6, c4 := c4, c2 := c2, c0 := c0, integrate_cb := .order6, hst := hst }

/-- `init_dfaf_02`: acceleration displacement-free smoother, 2% tolerance. -/
def init_dfaf_02 (target_freq damping_ratio : ℝ) : smoother :=
  let hst := 1.282011392 / target_freq
  let v := 1 / hst
  let inv_hst2 := v * v
  let c0 := 1.57525352661564 * v
  let v := v * inv_hst2
  let c2 := -7.728603566914598 * v
  let v := v * inv_hst2
  let c4 := 11.55794321405673 * v
  let v := v * inv_hst2
  let c6 := -5.674486863182988 * v
  { c6 := c6, c4 := c4, c2 := c2, c0 := c0, integrate_cb := .order6, hst := hst }

/-- `init_dfaf_01`: acceleration displacement-free smoother, 1% tolerance. -/
def init_dfaf_01 (target_freq damping_ratio : ℝ) : smoother :=
  let hst := 1.727828982 / target_freq
  let v := 1 / hst
  let inv_hst2 := v * v
  let c0 := 1.561217589994576 * v
  let v := v * inv_hst2
  let c2 := -7.310414825115637 * v
  let v := v * inv_hst2
  let c4 := 10.09765353406272 * v
  let v := v * inv_hst2
  let c6 := -4.507603485713351 * v
  { c6 := c6, c4 := c4, c2 := c2, c0 := c0, integrate_cb := .order6, hst := hst }

/-- Result of `alloc_smoother`: a NULL return, a call through a NULL function
pointer (undefined behaviour, modelled as `crash`), or a constructed kernel. -/
inductive alloc_result where
  | null : alloc_result
  | crash : alloc_result
  | ok : smoother → alloc_result

/-- The designated-initializer table `init_smoother_callbacks[]` of size 7
(`[SIFP05]=1 .. [DFAF01]=6`); index 0 holds a NULL entry. -/
def init_smoother_callbacks (i : ℤ) : Option (ℝ → ℝ → smoother) :=
  if i = 1 then some init_sifp_05
  else if i = 2 then some init_siaf_05
  else if i = 3 then some init_dfsf_05
  else if i = 4 then some init_dfaf_05
  else if i = 5 then some init_dfaf_02
  else if i = 6 then some init_dfaf_01
  else none

/-- `alloc_smoother`: bounds-check the type against `ARRAY_SIZE = 7`, then
call the table entry; a NULL entry gives a crash, not a NULL return. -/
def alloc_smoother (smoother_type : ℤ) (target_freq damping_ratio : ℝ) : alloc_result :=
  if 7 ≤ smoother_type ∨ smoother_type < 0 then .null
  else
    match init_smoother_callbacks smoother_type with
    | none => .crash
    | some init => .ok (init target_freq damping_ratio)

/-- Witness for C1: the DFAF05 catalog kernel at concrete inputs. -/
theorem integrate_weighted_eq_integral_witness :
    integrate_weighted (init_dfaf_05 1 0) 1 2 3 0 1 (1/2)
      = ∫ t in (0:ℝ)..1, (1 + 2*t + 3*t^2) * smoother_weight (init_dfaf_05 1 0) (t + 1/2) :=
  integrate_weighted_eq_integral (init_dfaf_05 1 0) 1 2 3 0 1 (1/2) trivial

/-- C10: the constructed kernel is independent of the damping ratio — for any
smoother type and target frequency, two different damping ratios give
identical `alloc_smoother` results (same `hst`, coefficients and callback). -/
theorem alloc_smoother_damping_independent (ty : ℤ) (f z1 z2 : ℝ) :
    alloc_smoother ty f z1 = alloc_smoother ty f z2 := by
  unfold alloc_smoother init_smoother_callbacks
  split_ifs <;> rfl

/-- C6 (code bug): `alloc_smoother` with `smoother_type = 0` — not one of the
six catalog tags — passes the `ARRAY_SIZE` bounds check and calls the NULL
entry of `init_smoother_callbacks` (a crash), instead of returning NULL. -/
theorem alloc_smoother_type_zero_crash (f z : ℝ) :
    alloc_smoother 0 f z = alloc_result.crash
      ∧ alloc_smoother 0 f z ≠ alloc_result.null := by
  have h : alloc_smoother 0 f z = alloc_result.crash := rfl
  exact ⟨h, by rw [h]; exact fun hc => alloc_result.noConfusion hc⟩

/-- The `v`-accumulation pattern shared by every initializer: each coefficient
is the family constant times `hst^-(2k+1)` (stated with the exact association
produced by the chained `v *= inv_hst2` updates). -/
theorem vchain_dimensionless (A1 A3 A5 A7 h : ℝ) (hh : h ≠ 0) :
    (A1 * (1/h)) * h = A1
    ∧ (A3 * (1/h * (1/h * (1/h)))) * h^3 = A3
    ∧ (A5 * ((1/h * (1/h * (1/h))) * (1/h * (1/h)))) * h^5 = A5
    ∧ (A7 * (((1/h * (1/h * (1/h))) * (1/h * (1/h))) * (1/h * (1/h)))) * h^7 = A7 := by
  refine ⟨?_, ?_, ?_, ?_⟩ <;> field_simp <;> exact Or.inl (by ring)

theorem sifp05_table (f z : ℝ) (hf : f ≠ 0) :
    (init_sifp_05 f z).hst * f = 0.5
    ∧ (init_sifp_05 f z).c0 * (init_sifp_05 f z).hst = 1.226407107944368
    ∧ (init_sifp_05 f z).c2 * (init_sifp_05 f z).hst^3 = -9.681726703406114
    ∧ (init_sifp_05 f z).c4 * (init_sifp_05 f z).hst^5 = 12.50417563262201
    ∧ (init_sifp_05 f z).c6 * (init_sifp_05 f z).hst^7 = 0 := by
  have t := vchain_dimensionless 1.226407107944368 (-9.681726703406114)
    12.50417563262201 0 (0.5/f) (div_ne_zero (by norm_num) hf)
  exact ⟨div_mul_cancel₀ _ hf, t.1, t.2.1, t.2.2.1, zero_mul _⟩

theorem siaf05_table (f z : ℝ) (hf : f ≠ 0) :
    (init_siaf_05 f z).hst * f = 0.682156695
    ∧ (init_siaf_05 f z).c0 * (init_siaf_05 f z).hst = 0.7264076297522936
    ∧ (init_siaf_05 f z).c2 * (init_siaf_05 f z).hst^3 = -1.00906293169719
    ∧ (init_siaf_05 f z).c4 * (init_siaf_05 f z).hst^5 = 0.5497334040671973
    ∧ (init_siaf_05 f z).c6 * (init_siaf_05 f z).hst^7 = 0 := by
  have t := vchain_dimensionless 0.7264076297522936 (-1.00906293169719)
    0.5497334040671973 0 (0.682156695/f) (div_ne_zero (by norm_num) hf)
  exact ⟨div_mul_cancel₀ _ hf, t.1, t.2.1, t.2.2.1, zero_mul _⟩

theorem dfsf05_table (f z : ℝ) (hf : f ≠ 0) :
    (init_dfsf_05 f z).hst * f = 0.879442505
    ∧ (init_dfsf_05 f z).c0 * (init_dfsf_05 f z).hst = 1.693005551405153
    ∧ (init_dfsf_05 f z).c2 * (init_dfsf_05 f z).hst^3 = -18.8720117988809
    ∧ (init_dfsf_05 f z).c4 * (init_dfsf_05 f z).hst^5 = 59.4391940955727
    ∧ (init_dfsf_05 f z).c6 * (init_dfsf_05 f z).hst^7 = -47.53121639625473 := by
  have t := vchain_dimensionless 1.693005551405153 (-18.8720117988809)
    59.4391940955727 (-47.53121639625473) (0.879442505/f) (div_ne_zero (by norm_num) hf)
  exact ⟨div_mul_cancel₀ _ hf, t.1, t.2.1, t.2.2.1, t.2.2.2⟩

theorem dfaf05_table (f z : ℝ) (hf : f ≠ 0) :
    (init_dfaf_05 f z).hst * f = 1.089438525
    ∧ (init_dfaf_05 f z).c0 * (init_dfaf_05 f z).hst = 1.42427487336909
    ∧ (init_dfaf_05 f z).c2 * (init_dfaf_05 f z).hst^3 = -5.783771970272312
    ∧ (init_dfaf_05 f z).c4 * (init_dfaf_05 f z).hst^5 = 7.766315293352271
    ∧ (init_dfaf_05 f z).c6 * (init_dfaf_05 f z).hst^7 = -3.847297593641651 := by
  have t := vchain_dimensionless 1.42427487336909 (-5.783771970272312)
    7.766315293352271 (-3.847297593641651) (1.089438525/f) (div_ne_zero (by norm_num) hf)
  exact ⟨div_mul_cancel₀ _ hf, t.1, t.2.1, t.2.2.1, t.2.2.2⟩

theorem dfaf02_table (f z : ℝ) (hf : f ≠ 0) :
    (init_dfaf_02 f z).hst * f = 1.282011392
    ∧ (init_dfaf_02 f z).c0 * (init_dfaf_02 f z).hst = 1.57525352661564
    ∧ (init_dfaf_02 f z).c2 * (init_dfaf_02 f z).hst^3 = -7.728603566914598
    ∧ (init_dfaf_02 f z).c4 * (init_dfaf_02 f z).hst^5 = 11.55794321405673
    ∧ (init_dfaf_02 f z).c6 * (init_dfaf_02 f z).hst^7 = -5.674486863182988 := by
  have t := vchain_dimensionless 1.57525352661564 (-7.728603566914598)
    11.55794321405673 (-5.674486863182988) (1.282011392/f) (div_ne_zero (by norm_num) hf)
  exact ⟨div_mul_cancel₀ _ hf, t.1, t.2.1, t.2.2.1, t.2.2.2⟩

theorem dfaf01_table (f z : ℝ) (hf : f ≠ 0) :
    (init_dfaf_01 f z).hst * f = 1.727828982
    ∧ (init_dfaf_01 f z).c0 * (init_dfaf_01 f z).hst = 1.561217589994576
    ∧ (init_dfaf_01 f z).c2 * (init_dfaf_01 f z).hst^3 = -7.310414825115637
    ∧ (init_dfaf_01 f z).c4 * (init_dfaf_01 f z).hst^5 = 10.09765353406272
    ∧ (init_dfaf_01 f z).c6 * (init_dfaf_01 f z).hst^7 = -4.507603485713351 := by
  have t := vchain_dimensionless 1.561217589994576 (-7.310414825115637)
    10.09765353406272 (-4.507603485713351) (1.727828982/f) (div_ne_zero (by norm_num) hf)
  exact ⟨div_mul_cancel₀ _ hf, t.1, t.2.1, t.2.2.1, t.2.2.2⟩

theorem ord2_shortest_table (f z : ℝ) (hf : f ≠ 0) :
    (init_2ord_shortest f z).hst * f = 0.29630246
    ∧ (init_2ord_shortest f z).c0 * (init_2ord_shortest f z).hst = 0.2183076974181258
    ∧ (init_2ord_shortest f z).c2 * (init_2ord_shortest f z).hst^3 = 2.154923092254376
    ∧ (init_2ord_shortest f z).c4 * (init_2ord_shortest f z).hst^5 = 0
    ∧ (init_2ord_shortest f z).c6 * (init_2ord_shortest f z).hst^7 = 0 := by
  have t := vchain_dimensionless 0.2183076974181258 2.154923092254376
    0 0 (0.29630246/f) (div_ne_zero (by norm_num) hf)
  exact ⟨div_mul_cancel₀ _ hf, t.1, t.2.1, zero_mul _, zero_mul _⟩

theorem ord2_allp_table (f z : ℝ) (hf : f ≠ 0) :
    (init_2ord_allp f z).hst * f = 0.331293106
    ∧ (init_2ord_allp f z).c0 * (init_2ord_allp f z).hst = 0
    ∧ (init_2ord_allp f z).c2 * (init_2ord_allp f z).hst^3 = 1.5
    ∧ (init_2ord_allp f z).c4 * (init_2ord_allp f z).hst^5 = 0
    ∧ (init_2ord_allp f z).c6 * (init_2ord_allp f z).hst^7 = 0 := by
  have t := vchain_dimensionless 0 1.5 0 0 (0.331293106/f) (div_ne_zero (by norm_num) hf)
  exact ⟨div_mul_cancel₀ _ hf, zero_mul _, t.2.1, zero_mul _, zero_mul _⟩

/-- C5: for each catalog family tag, `alloc_smoother` dispatches to the family
initializer, which constructs `hst` as the family constant over the target
frequency and each `c_k` as the family constant times `hst^(-(2k+1))`, so the
dimensionless tuples `(hst·f, c0·hst, c2·hst³, c4·hst⁵, c6·hst⁷)` match the
reference table exactly; likewise for the two internal 2nd-order entries. -/
theorem smoother_catalog_table (f z : ℝ) (hf : f ≠ 0) :
    (alloc_smoother 1 f z = alloc_result.ok (init_sifp_05 f z)
      ∧ alloc_smoother 2 f z = alloc_result.ok (init_siaf_05 f z)
      ∧ alloc_smoother 3 f z = alloc_result.ok (init_dfsf_05 f z)
      ∧ alloc_smoother 4 f z = alloc_result.ok (init_dfaf_05 f z)
      ∧ alloc_smoother 5 f z = alloc_result.ok (init_dfaf_02 f z)
      ∧ alloc_smoother 6 f z = alloc_result.ok (init_dfaf_01 f z))
    ∧ ((init_sifp_05 f z).hst * f = 0.5
      ∧ (init_sifp_05 f z).c0 * (init_sifp_05 f z).hst = 1.226407107944368
      ∧ (init_sifp_05 f z).c2 * (init_sifp_05 f z).hst^3 = -9.681726703406114
      ∧ (init_sifp_05 f z).c4 * (init_sifp_05 f z).hst^5 = 12.50417563262201
      ∧ (init_sifp_05 f z).c6 * (init_sifp_05 f z).hst^7 = 0)
    ∧ ((init_siaf_05 f z).hst * f = 0.682156695
      ∧ (init_siaf_05 f z).c0 * (init_siaf_05 f z).hst = 0.7264076297522936
      ∧ (init_siaf_05 f z).c2 * (init_siaf_05 f z).hst^3 = -1.00906293169719
      ∧ (init_siaf_05 f z).c4 * (init_siaf_05 f z).hst^5 = 0.5497334040671973
      ∧ (init_siaf_05 f z).c6 * (init_siaf_05 f z).hst^7 = 0)
    ∧ ((init_dfsf_05 f z).hst * f = 0.879442505
      ∧ (init_dfsf_05 f z).c0 * (init_dfsf_05 f z).hst = 1.693005551405153
      ∧ (init_dfsf_05 f z).c2 * (init_dfsf_05 f z).hst^3 = -18.8720117988809
      ∧ (init_dfsf_05 f z).c4 * (init_dfsf_05 f z).hst^5 = 59.4391940955727
      ∧ (init_dfsf_05 f z).c6 * (init_dfsf_05 f z).hst^7 = -47.53121639625473)
    ∧ ((init_dfaf_05 f z).hst * f = 1.089438525
      ∧ (init_dfaf_05 f z).c0 * (init_dfaf_05 f z).hst = 1.42427487336909
      ∧ (init_dfaf_05 f z).c2 * (init_dfaf_05 f z).hst^3 = -5.783771970272312
      ∧ (init_dfaf_05 f z).c4 * (init_dfaf_05 f z).hst^5 = 7.766315293352271
      ∧ (init_dfaf_05 f z).c6 * (init_dfaf_05 f z).hst^7 = -3.847297593641651)
    ∧ ((init_dfaf_02 f z).hst * f = 1.282011392
      ∧ (init_dfaf_02 f z).c0 * (init_dfaf_02 f z).hst = 1.57525352661564
      ∧ (init_dfaf_02 f z).c2 * (init_dfaf_02 f z).hst^3 = -7.728603566914598
      ∧ (init_dfaf_02 f z).c4 * (init_dfaf_02 f z).hst^5 = 11.55794321405673
      ∧ (init_dfaf_02 f z).c6 * (init_dfaf_02 f z).hst^7 = -5.674486863182988)
    ∧ ((init_dfaf_01 f z).hst * f = 1.727828982
      ∧ (init_dfaf_01 f z).c0 * (init_dfaf_01 f z).hst = 1.561217589994576
      ∧ (init_dfaf_01 f z).c2 * (init_dfaf_01 f z).hst^3 = -7.310414825115637
      ∧ (init_dfaf_01 f z).c4 * (init_dfaf_01 f z).hst^5 = 10.09765353406272
      ∧ (init_dfaf_01 f z).c6 * (init_dfaf_01 f z).hst^7 = -4.507603485713351)
    ∧ ((init_2ord_shortest f z).hst * f = 0.29630246
      ∧ (init_2ord_shortest f z).c0 * (init_2ord_shortest f z).hst = 0.2183076974181258
      ∧ (init_2ord_shortest f z).c2 * (init_2ord_shortest f z).hst^3 = 2.154923092254376
      ∧ (init_2ord_shortest f z).c4 * (init_2ord_shortest f z).hst^5 = 0
      ∧ (init_2ord_shortest f z).c6 * (init_2ord_shortest f z).hst^7 = 0)
    ∧ ((init_2ord_allp f z).hst * f = 0.331293106
      ∧ (init_2ord_allp f z).c0 * (init_2ord_allp f z).hst = 0
      ∧ (init_2ord_allp f z).c2 * (init_2ord_allp f z).hst^3 = 1.5
      ∧ (init_2ord_allp f z).c4 * (init_2ord_allp f z).hst^5 = 0
      ∧ (init_2ord_allp f z).c6 * (init_2ord_allp f z).hst^7 = 0) := by
  exact ⟨⟨rfl, rfl, rfl, rfl, rfl, rfl⟩,
    sifp05_table f z hf, siaf05_table f z hf, dfsf05_table f z hf,
    dfaf05_table f z hf, dfaf02_table f z hf, dfaf01_table f z hf,
    ord2_shortest_table f z hf, ord2_allp_table f z hf⟩

/-- Witness for C5 at `f = 1`, `z = 0`. -/
theorem smoother_catalog_table_witness :
    (init_dfaf_05 1 0).hst * 1 = 1.089438525
      ∧ (init_dfaf_05 1 0).c0 * (init_dfaf_05 1 0).hst = 1.42427487336909
      ∧ (init_dfaf_05 1 0).c2 * (init_dfaf_05 1 0).hst^3 = -5.783771970272312
      ∧ (init_dfaf_05 1 0).c4 * (init_dfaf_05 1 0).hst^5 = 7.766315293352271
      ∧ (init_dfaf_05 1 0).c6 * (init_dfaf_05 1 0).hst^7 = -3.847297593641651 :=
  (smoother_catalog_table 1 0 (by norm_num)).2.2.2.2.1

/-- Integrating a constant `P0` over the full window `[t - hst, t + hst]`
with `toff = -t`, for a 4th-order kernel. -/
theorem const_window_order4 (sm : smoother) (hcb : sm.integrate_cb = .order4) (P0 t : ℝ) :
    integrate_weighted sm P0 0 0 (t - sm.hst) (t + sm.hst) (-t)
      = P0 * (2 * (sm.c0 * sm.hst) + 2/3 * (sm.c2 * sm.hst^3)
          + 2/5 * (sm.c4 * sm.hst^5)) := by
  simp only [integrate_weighted, apply_integrate_cb, hcb, integrate_4th_order,
    i4wt0, i4wt1, i4wt2]
  ring

/-- Integrating a constant `P0` over the full window `[t - hst, t + hst]`
with `toff = -t`, for a 6th-order kernel. -/
theorem const_window_order6 (sm : smoother) (hcb : sm.integrate_cb = .order6) (P0 t : ℝ) :
    integrate_weighted sm P0 0 0 (t - sm.hst) (t + sm.hst) (-t)
      = P0 * (2 * (sm.c0 * sm.hst) + 2/3 * (sm.c2 * sm.hst^3)
          + 2/5 * (sm.c4 * sm.hst^5) + 2/7 * (sm.c6 * sm.hst^7)) := by
  simp only [integrate_weighted, apply_integrate_cb, hcb, integrate_6th_order,
    i6wt0, i6wt1, i6wt2]
  ring

/-- `|P0·M − P0| ≤ ε·|P0|` once `M` is within `ε` of `1`. -/
theorem rel_close (P0 M eps : ℝ) (hM : |M - 1| ≤ eps) : |P0 * M - P0| ≤ eps * |P0| := by
  have h : P0 * M - P0 = (M - 1) * P0 := by ring
  rw [h, abs_mul]
  exact mul_le_mul_of_nonneg_right hM (abs_nonneg _)

/-- C2 counterexample: the DFSF05 catalog kernel (tag 3) misses constant
preservation by more than `1e-12` relative — in exact arithmetic its weight
polynomial integrates to `1 - 16937/10500000000000000 ≈ 1 - 1.61e-12`. -/
theorem smoother_normalization_1e12_counterexample :
    alloc_smoother 3 1 0 = alloc_result.ok (init_dfsf_05 1 0)
    ∧ 1e-12 * |(1:ℝ)|
      < |integrate_weighted (init_dfsf_05 1 0) 1 0 0 (0 - (init_dfsf_05 1 0).hst)
          (0 + (init_dfsf_05 1 0).hst) (-0) - 1| := by
  refine ⟨rfl, ?_⟩
  rw [const_window_order6 _ rfl 1 0,
    (dfsf05_table 1 0 one_ne_zero).2.1, (dfsf05_table 1 0 one_ne_zero).2.2.1,
    (dfsf05_table 1 0 one_ne_zero).2.2.2.1, (dfsf05_table 1 0 one_ne_zero).2.2.2.2]
  rw [abs_one, mul_one, abs_of_nonpos (by norm_num)]
  norm_num

/-- C2 (amended): for every kernel produced by `alloc_smoother` from the
six-member catalog, integrating a constant trajectory `P0` over the full
window `[t - hst, t + hst]` returns `P0` to within `2e-12` relative (the
claimed `1e-12` fails for DFSF05 and DFAF02). -/
theorem smoother_normalization_2e12 (ty : ℤ) (f z P0 t : ℝ) (sm : smoother)
    (h1 : 1 ≤ ty) (h2 : ty ≤ 6) (hf : f ≠ 0)
    (hsm : alloc_smoother ty f z = alloc_result.ok sm) :
    |integrate_weighted sm P0 0 0 (t - sm.hst) (t + sm.hst) (-t) - P0|
      ≤ 2e-12 * |P0| := by
  interval_cases ty
  · norm_num [alloc_smoother, init_smoother_callbacks] at hsm
    subst hsm
    rw [const_window_order4 _ rfl P0 t,
      (sifp05_table f z hf).2.1, (sifp05_table f z hf).2.2.1,
      (sifp05_table f z hf).2.2.2.1]
    exact rel_close _ _ _ (by rw [abs_le]; constructor <;> norm_num)
  · norm_num [alloc_smoother, init_smoother_callbacks] at hsm
    subst hsm
    rw [const_window_order4 _ rfl P0 t,
      (siaf05_table f z hf).2.1, (siaf05_table f z hf).2.2.1,
      (siaf05_table f z hf).2.2.2.1]
    exact rel_close _ _ _ (by rw [abs_le]; constructor <;> norm_num)
  · norm_num [alloc_smoother, init_smoother_callbacks] at hsm
    subst hsm
    rw [const_window_order6 _ rfl P0 t,
      (dfsf05_table f z hf).2.1, (dfsf05_table f z hf).2.2.1,
      (dfsf05_table f z hf).2.2.2.1, (dfsf05_table f z hf).2.2.2.2]
    exact rel_close _ _ _ (by rw [abs_le]; constructor <;> norm_num)
  · norm_num [alloc_smoother, init_smoother_callbacks] at hsm
    subst hsm
    rw [const_window_order6 _ rfl P0 t,
      (dfaf05_table f z hf).2.1, (dfaf05_table f z hf).2.2.1,
      (dfaf05_table f z hf).2.2.2.1, (dfaf05_table f z hf).2.2.2.2]
    exact rel_close _ _ _ (by rw [abs_le]; constructor <;> norm_num)
  · norm_num [alloc_smoother, init_smoother_callbacks] at hsm
    subst hsm
    rw [const_window_order6 _ rfl P0 t,
      (dfaf02_table f z hf).2.1, (dfaf02_table f z hf).2.2.1,
      (dfaf02_table f z hf).2.2.2.1, (dfaf02_table f z hf).2.2.2.2]
    exact rel_close _ _ _ (by rw [abs_le]; constructor <;> norm_num)
  · norm_num [alloc_smoother, init_smoother_callbacks] at hsm
    subst hsm
    rw [const_window_order6 _ rfl P0 t,
      (dfaf01_table f z hf).2.1, (dfaf01_table f z hf).2.2.1,
      (dfaf01_table f z hf).2.2.2.1, (dfaf01_table f z hf).2.2.2.2]
    exact rel_close _ _ _ (by rw [abs_le]; constructor <;> norm_num)

/-- Witness for the amended C2 at the DFAF05 kernel, `f = 1`, `P0 = 1`, `t = 0`. -/
theorem smoother_normalization_2e12_witness :
    |integrate_weighted (init_dfaf_05 1 0) 1 0 0 (0 - (init_dfaf_05 1 0).hst)
        (0 + (init_dfaf_05 1 0).hst) (-0) - 1| ≤ 2e-12 * |(1:ℝ)| :=
  smoother_normalization_2e12 4 1 0 1 0 (init_dfaf_05 1 0)
    (by norm_num) (by norm_num) one_ne_zero rfl

/-! ## S-curve and move model

`scurve.c` / `trapq.c` are external collaborators of the core; their
polynomial helpers are modelled from the spec (§4.2): an S-curve holds
coefficients `c1..c6` of an axis-free progress polynomial `s(τ) = Σ cₖ τᵏ`,
and the helpers are its exact evaluations / antiderivatives. -/

structure coord where
  x : ℝ
  y : ℝ
  z : ℝ

structure scurve where
  c1 : ℝ
  c2 : ℝ
  c3 : ℝ
  c4 : ℝ
  c5 : ℝ
  c6 : ℝ

/-- Modelled from the spec: `scurve_eval(τ)` — progress value `Σ cₖ·τ^k`. -/
def scurve_eval (s : scurve) (t : ℝ) : ℝ :=
  s.c1*t + s.c2*t^2 + s.c3*t^3 + s.c4*t^4 + s.c5*t^5 + s.c6*t^6

/-- Modelled from the spec: the derivative `s'(τ)` of the progress curve
(used for the pressure-advance velocity term). -/
def scurve_deriv (s : scurve) (t : ℝ) : ℝ :=
  s.c1 + 2*s.c2*t + 3*s.c3*t^2 + 4*s.c4*t^3 + 5*s.c5*t^4 + 6*s.c6*t^5

/-- Modelled from the spec: `scurve_integrate(a, b) = ∫ᵇₐ s(τ) dτ`. -/
def scurve_integrate (s : scurve) (a b : ℝ) : ℝ :=
  (s.c1/2*b^2 + s.c2/3*b^3 + s.c3/4*b^4 + s.c4/5*b^5 + s.c5/6*b^6 + s.c6/7*b^7)
  - (s.c1/2*a^2 + s.c2/3*a^3 + s.c3/4*a^4 + s.c4/5*a^5 + s.c5/6*a^6 + s.c6/7*a^7)

/-- Modelled from the spec: `scurve_integrate_t(a, b) = ∫ᵇₐ τ·s(τ) dτ`. -/
def scurve_integrate_t (s : scurve) (a b : ℝ) : ℝ :=
  (s.c1/3*b^3 + s.c2/4*b^4 + s.c3/5*b^5 + s.c4/6*b^6 + s.c5/7*b^7 + s.c6/8*b^8)
  - (s.c1/3*a^3 + s.c2/4*a^4 + s.c3/5*a^5 + s.c4/6*a^6 + s.c5/7*a^7 + s.c6/8*a^8)

/-- Modelled from the spec: `scurve_diff(a, b) = s(b) - s(a)` (so that
`∫ᵇₐ α·s'(τ) dτ = α·scurve_diff(a, b)`). -/
def scurve_diff (s : scurve) (a b : ℝ) : ℝ :=
  scurve_eval s b - scurve_eval s a

/-- Modelled from the spec: `scurve_deriv_t_integrate(a, b) = ∫ᵇₐ τ·s'(τ) dτ`
(antiderivative of `τ·s'(τ) = Σ k·cₖ·τ^k` is `Σ k·cₖ·τ^(k+1)/(k+1)`). -/
def scurve_deriv_t_integrate (s : scurve) (a b : ℝ) : ℝ :=
  (1*s.c1/2*b^2 + 2*s.c2/3*b^3 + 3*s.c3/4*b^4 + 4*s.c4/5*b^5 + 5*s.c5/6*b^6 + 6*s.c6/7*b^7)
  - (1*s.c1/2*a^2 + 2*s.c2/3*a^3 + 3*s.c3/4*a^4 + 4*s.c4/5*a^5 + 5*s.c5/6*a^6 + 6*s.c6/7*a^7)

/-- A move of the trapezoid queue, restricted to the fields the core reads:
duration, start position, per-axis direction ratios and the S-curve. -/
structure move where
  move_t : ℝ
  start_pos : coord
  axes_r : coord
  s : scurve

/-- Modelled from the spec: `move_get_distance(m, t)` — the scalar progress
`s(t)` of the move at local time `t`. -/
def move_get_distance (m : move) (move_time : ℝ) : ℝ :=
  scurve_eval m.s move_time

/-! ## Extruder pressure-advance kinematics (`kin_extruder.c`) -/

/-- `extruder_integrate`: definitive integral over `[start, end]` of
`position(t) = base + s(t) + pa·s'(t)` within one move. -/
def extruder_integrate (m : move) (start e : ℝ) : ℝ :=
  let pressure_advance := m.axes_r.y
  let pa_add := pressure_advance * scurve_diff m.s start e
  let base := m.start_pos.x * (e - start)
  let integral := scurve_integrate m.s start e
  base + integral + pa_add

/-- `extruder_integrate_time`: definitive integral over `[start, end]` of
`t * (base + s(t) + pa·s'(t))` within one move. -/
def extruder_integrate_time (m : move) (start e : ℝ) : ℝ :=
  let pressure_advance := m.axes_r.y
  let pa_add := pressure_advance * scurve_deriv_t_integrate m.s start e
  let base := 0.5 * m.start_pos.x * (e * e - start * start)
  let integral := scurve_integrate_t m.s start e
  base + integral + pa_add

/-- `pa_move_integrate`: clamp the range to the move and combine the plain and
time-weighted integrals with the window-endpoint time offset. -/
def pa_move_integrate (m : move) (start e time_offset : ℝ) : ℝ :=
  let start := max start 0
  let e := min e m.move_t
  let iext := extruder_integrate m start e
  let wgt_ext := extruder_integrate_time m start e
  wgt_ext - time_offset * iext

/-- The backward walk of `pa_range_integrate`: pop previous moves while the
accumulated `start` is still negative. -/
def pa_prev_integrate : List move → ℝ → ℝ
  | ms, start =>
    if start < 0 then
      match ms with
      | [] => 0
      | p :: rest =>
          pa_move_integrate p (start + p.move_t) p.move_t (start + p.move_t)
            + pa_prev_integrate rest (start + p.move_t)
    else 0

/-- The forward walk of `pa_range_integrate`: advance to the next move while
the remaining `end` exceeds the current move's duration. -/
def pa_next_integrate : move → List move → ℝ → ℝ
  | m, ms, e =>
    if m.move_t < e then
      match ms with
      | [] => 0
      | n :: rest =>
          -pa_move_integrate n 0 (e - m.move_t) (e - m.move_t)
            + pa_next_integrate n rest (e - m.move_t)
    else 0

/-- `pa_range_integrate`: the triangular-window integral of the extruder
position over the moves overlapping `[move_time - hst, move_time + hst]`;
the queue is embedded as the current move plus its backward/forward
neighbour lists. -/
def pa_range_integrate (prevs : List move) (m : move) (nexts : List move)
    (move_time hst : ℝ) : ℝ :=
  let start := move_time - hst
  let e := move_time + hst
  pa_move_integrate m start move_time start
    - pa_move_integrate m move_time e e
    + pa_prev_integrate prevs start
    + pa_next_integrate m nexts e

/-- The extruder stepper handle (the embedded `stepper_kinematics` is
restricted to the two scheduling margins the extruder code touches). -/
structure extruder_stepper where
  half_smooth_time : ℝ
  inv_half_smooth_time2 : ℝ
  gen_steps_pre_active : ℝ
  gen_steps_post_active : ℝ

/-- `extruder_calc_position`. -/
def extruder_calc_position (es : extruder_stepper) (prevs : List move) (m : move)
    (nexts : List move) (move_time : ℝ) : ℝ :=
  let hst := es.half_smooth_time
  if hst = 0 then m.start_pos.x + move_get_distance m move_time
  else
    let area := pa_range_integrate prevs m nexts move_time hst
    area * es.inv_half_smooth_time2

/-- `extruder_set_smooth_time` (the early return on `hst = 0` leaves the
stale inverse in place, exactly as the C does). -/
def extruder_set_smooth_time (es : extruder_stepper) (smooth_time : ℝ) : extruder_stepper :=
  let hst := smooth_time * 0.5
  let es := { es with half_smooth_time := hst,
                      gen_steps_pre_active := hst, gen_steps_post_active := hst }
  if hst = 0 then es
  else { es with inv_half_smooth_time2 := 1 / (hst * hst) }

/-- A concrete quadratic-progress move (progress `s(τ) = τ²`, no pressure
advance) used in concrete evaluations. -/
def quad_move : move :=
  { move_t := 10, start_pos := ⟨0, 0, 0⟩, axes_r := ⟨1, 0, 0⟩,
    s := { c1 := 0, c2 := 1, c3 := 0, c4 := 0, c5 := 0, c6 := 0 } }

/-- An extruder handle with half-smooth-time 1. -/
def unit_extruder : extruder_stepper :=
  { half_smooth_time := 1, inv_half_smooth_time2 := 1,
    gen_steps_pre_active := 1, gen_steps_post_active := 1 }

/-- C7 counterexample: with pressure advance `α = 0` but half-smooth-time
`h = 1 ≠ 0`, `extruder_calc_position` on an accelerating move returns the
*smoothed* nominal position (`25/6` here), not the unsmoothed
`start_pos + distance(t)` (`4` here) as the claim states. -/
theorem extruder_pa_zero_counterexample :
    quad_move.axes_r.y = 0
    ∧ extruder_calc_position unit_extruder [] quad_move [] 2
        ≠ quad_move.start_pos.x + move_get_distance quad_move 2 := by
  refine ⟨rfl, ?_⟩
  norm_num [extruder_calc_position, unit_extruder, quad_move, pa_range_integrate,
    pa_prev_integrate, pa_next_integrate, pa_move_integrate, extruder_integrate,
    extruder_integrate_time, scurve_integrate, scurve_integrate_t, scurve_diff,
    scurve_deriv_t_integrate, scurve_eval, move_get_distance, max_def, min_def]

/-- C7 (amended): when the configured half-smooth-time is zero,
`extruder_calc_position` returns the unsmoothed nominal position
`start_pos.x + distance(m, t)` (with `α = 0` but `h ≠ 0` the result is the
triangular-window smoothed nominal position instead). -/
theorem extruder_hst_zero_nominal (es : extruder_stepper) (prevs : List move)
    (m : move) (nexts : List move) (t : ℝ) (h : es.half_smooth_time = 0) :
    extruder_calc_position es prevs m nexts t
      = m.start_pos.x + move_get_distance m t := by
  simp [extruder_calc_position, h]

/-- Witness for the amended C7. -/
theorem extruder_hst_zero_nominal_witness :
    extruder_calc_position ⟨0, 1, 0, 0⟩ [] quad_move [] 2
      = quad_move.start_pos.x + move_get_distance quad_move 2 :=
  extruder_hst_zero_nominal ⟨0, 1, 0, 0⟩ [] quad_move [] 2 rfl

/-! ## `extruder_add_move` and the trapezoid it enqueues -/

/-- The acceleration trapezoid supplied by the planner (external; modelled
from the spec and the fields `extruder_add_move` reads and writes). -/
structure trap_accel_decel where
  accel_comp : ℝ
  accel_t : ℝ
  uncomp_accel_t : ℝ
  accel_offset_t : ℝ
  uncomp_accel_offset_t : ℝ
  total_accel_t : ℝ
  start_accel_v : ℝ
  effective_accel : ℝ
  decel_t : ℝ
  uncomp_decel_t : ℝ
  decel_offset_t : ℝ
  uncomp_decel_offset_t : ℝ
  total_decel_t : ℝ
  cruise_v : ℝ
  effective_decel : ℝ

/-- The record appended to the trapezoid queue. -/
structure trapq_entry where
  print_time : ℝ
  start_pos : coord
  axes_r : coord
  accel_decel : trap_accel_decel

/-- Modelled from the spec: `trapq_append(tq, print_time, sx, sy, sz, rx, ry,
rz, accel_decel)` enqueues a move with that start time, start position, axis
ratios and trapezoid. -/
def trapq_append (print_time sx sy sz rx ry rz : ℝ) (ad : trap_accel_decel) : trapq_entry :=
  { print_time := print_time, start_pos := ⟨sx, sy, sz⟩, axes_r := ⟨rx, ry, rz⟩,
    accel_decel := ad }

/-- `extruder_add_move`: un-compensate the print time, strip acceleration
compensation from the trapezoid, scale velocities by `extrude_r`, and enqueue
with the pressure-advance factor in `axes_r.y`. -/
def extruder_add_move (print_time start_e_pos extrude_r pressure_advance : ℝ)
    (accel_decel : trap_accel_decel) : trapq_entry :=
  let print_time :=
    if accel_decel.total_accel_t ≠ 0 then
      print_time + accel_decel.uncomp_accel_offset_t - accel_decel.accel_offset_t
    else if accel_decel.total_decel_t ≠ 0 then
      print_time + accel_decel.uncomp_decel_offset_t - accel_decel.decel_offset_t
    else print_time
  let new_accel_decel := { accel_decel with
    accel_comp := 0,
    accel_t := accel_decel.uncomp_accel_t,
    accel_offset_t := accel_decel.uncomp_accel_offset_t,
    decel_t := accel_decel.uncomp_decel_t,
    decel_offset_t := accel_decel.uncomp_decel_offset_t }
  let new_accel_decel := { new_accel_decel with
    start_accel_v := new_accel_decel.start_accel_v * extrude_r,
    cruise_v := new_accel_decel.cruise_v * extrude_r,
    effective_accel := new_accel_decel.effective_accel * extrude_r,
    effective_decel := new_accel_decel.effective_decel * extrude_r }
  trapq_append print_time start_e_pos 0 0 1 pressure_advance 0 new_accel_decel

/-- C8: with a non-zero `accel_comp`, the enqueued move starts at
`print_time + uncomp_accel_offset_t - accel_offset_t` during an acceleration
segment (or the decel equivalent), its trapezoid has compensation disabled
with accel/decel durations and offsets replaced by the uncompensated values,
its velocities are scaled by `extrude_r`, and `axes_r.y` holds the
pressure-advance factor. -/
theorem extruder_add_move_spec (print_time start_e_pos extrude_r pressure_advance : ℝ)
    (ad : trap_accel_decel) (hcomp : ad.accel_comp ≠ 0) :
    (ad.total_accel_t ≠ 0 →
      (extruder_add_move print_time start_e_pos extrude_r pressure_advance ad).print_time
        = print_time + ad.uncomp_accel_offset_t - ad.accel_offset_t)
    ∧ (ad.total_accel_t = 0 → ad.total_decel_t ≠ 0 →
      (extruder_add_move print_time start_e_pos extrude_r pressure_advance ad).print_time
        = print_time + ad.uncomp_decel_offset_t - ad.decel_offset_t)
    ∧ (extruder_add_move print_time start_e_pos extrude_r pressure_advance ad).accel_decel.accel_comp = 0
    ∧ (extruder_add_move print_time start_e_pos extrude_r pressure_advance ad).accel_decel.accel_t
        = ad.uncomp_accel_t
    ∧ (extruder_add_move print_time start_e_pos extrude_r pressure_advance ad).accel_decel.accel_offset_t
        = ad.uncomp_accel_offset_t
    ∧ (extruder_add_move print_time start_e_pos extrude_r pressure_advance ad).accel_decel.decel_t
        = ad.uncomp_decel_t
    ∧ (extruder_add_move print_time start_e_pos extrude_r pressure_advance ad).accel_decel.decel_offset_t
        = ad.uncomp_decel_offset_t
    ∧ (extruder_add_move print_time start_e_pos extrude_r pressure_advance ad).accel_decel.start_accel_v
        = ad.start_accel_v * extrude_r
    ∧ (extruder_add_move print_time start_e_pos extrude_r pressure_advance ad).accel_decel.cruise_v
        = ad.cruise_v * extrude_r
    ∧ (extruder_add_move print_time start_e_pos extrude_r pressure_advance ad).accel_decel.effective_accel
        = ad.effective_accel * extrude_r
    ∧ (extruder_add_move print_time start_e_pos extrude_r pressure_advance ad).accel_decel.effective_decel
        = ad.effective_decel * extrude_r
    ∧ (extruder_add_move print_time start_e_pos extrude_r pressure_advance ad).axes_r.y
        = pressure_advance :=
  ⟨fun h => by simp [extruder_add_move, trapq_append, h],
   fun h h' => by simp [extruder_add_move, trapq_append, h, h'],
   rfl, rfl, rfl, rfl, rfl, rfl, rfl, rfl, rfl, rfl⟩

/-- A concrete trapezoid in an acceleration segment with compensation on. -/
def sample_ad : trap_accel_decel :=
  { accel_comp := 1, accel_t := 2, uncomp_accel_t := 3, accel_offset_t := 4,
    uncomp_accel_offset_t := 5, total_accel_t := 6, start_accel_v := 7,
    effective_accel := 8, decel_t := 9, uncomp_decel_t := 10, decel_offset_t := 11,
    uncomp_decel_offset_t := 12, total_decel_t := 0, cruise_v := 13,
    effective_decel := 14 }

/-- Witness for C8 on `sample_ad`. -/
theorem extruder_add_move_spec_witness :
    (extruder_add_move 100 1 2 0.04 sample_ad).print_time = 100 + 5 - 4
    ∧ (extruder_add_move 100 1 2 0.04 sample_ad).accel_decel.accel_comp = 0
    ∧ (extruder_add_move 100 1 2 0.04 sample_ad).accel_decel.start_accel_v = 7 * 2
    ∧ (extruder_add_move 100 1 2 0.04 sample_ad).axes_r.y = 0.04 := by
  have h := extruder_add_move_spec 100 1 2 0.04 sample_ad (by norm_num [sample_ad])
  exact ⟨h.1 (by norm_num [sample_ad]), h.2.2.1, h.2.2.2.2.2.2.2.1,
    h.2.2.2.2.2.2.2.2.2.2.2⟩

/-! ## Smooth-axis wrapper (`smooth_axis_set_sk`) -/

/-- The three dispatch variants `smooth_axis_set_sk` can install. -/
inductive smooth_axis_variant where
  | smooth_x : smooth_axis_variant
  | smooth_y : smooth_axis_variant
  | smooth_xy : smooth_axis_variant

/-- Axis-use flags (`AF_X`, `AF_Y`, `AF_Z`). -/
structure active_flags where
  x : Bool
  y : Bool
  z : Bool

/-- An inner stepper-kinematics handle, restricted to its axis-use flags
(the only member `smooth_axis_set_sk` inspects). -/
structure stepper_kinematics where
  active_flags : active_flags

/-- The `smooth_axis` handle state read or written by `smooth_axis_set_sk`. -/
structure smooth_axis where
  calc_position_cb : Option smooth_axis_variant
  active_flags : active_flags
  orig_sk : Option stepper_kinematics

/-- `smooth_axis_set_sk`: mask the inner kinematics' flags with `AF_X|AF_Y`,
install the matching dispatch variant and record the inner kinematics, or
return `-1` without touching the handle. -/
def smooth_axis_set_sk (sa : smooth_axis) (orig_sk : stepper_kinematics) :
    ℤ × smooth_axis :=
  let af_x := orig_sk.active_flags.x
  let af_y := orig_sk.active_flags.y
  if af_x && af_y then
    (0, { sa with calc_position_cb := some .smooth_xy,
                  active_flags := orig_sk.active_flags, orig_sk := some orig_sk })
  else if af_x then
    (0, { sa with calc_position_cb := some .smooth_x,
                  active_flags := orig_sk.active_flags, orig_sk := some orig_sk })
  else if af_y then
    (0, { sa with calc_position_cb := some .smooth_y,
                  active_flags := orig_sk.active_flags, orig_sk := some orig_sk })
  else (-1, sa)

/-- C9: `smooth_axis_set_sk` returns non-zero exactly when the inner
kinematics uses neither X nor Y; in that case the handle is left in its prior
state; on success it records the inner kinematics, copies its active flags,
and installs the X-only, Y-only or XY dispatch variant according to which of
X and Y the inner kinematics consumes. -/
theorem smooth_axis_set_sk_spec (sa : smooth_axis) (orig_sk : stepper_kinematics) :
    ((smooth_axis_set_sk sa orig_sk).1 ≠ 0
        ↔ orig_sk.active_flags.x = false ∧ orig_sk.active_flags.y = false)
    ∧ ((smooth_axis_set_sk sa orig_sk).1 ≠ 0 → (smooth_axis_set_sk sa orig_sk).2 = sa)
    ∧ ((smooth_axis_set_sk sa orig_sk).1 = 0 →
        (smooth_axis_set_sk sa orig_sk).2.orig_sk = some orig_sk
        ∧ (smooth_axis_set_sk sa orig_sk).2.active_flags = orig_sk.active_flags
        ∧ (smooth_axis_set_sk sa orig_sk).2.calc_position_cb
            = some (if orig_sk.active_flags.x && orig_sk.active_flags.y then .smooth_xy
                    else if orig_sk.active_flags.x then .smooth_x else .smooth_y)) := by
  obtain ⟨⟨bx, bb, bz⟩⟩ := orig_sk
  cases bx <;> cases bb <;> simp [smooth_axis_set_sk]

/-- An inner kinematics that uses only the Z axis. -/
def z_only_sk : stepper_kinematics := ⟨⟨false, false, true⟩⟩

/-- A smooth-axis handle in its freshly-allocated state. -/
def sample_sa : smooth_axis := ⟨none, ⟨false, false, false⟩, none⟩

/-- Witness for C9: a Z-only inner kinematics is rejected and the handle is
unchanged. -/
theorem smooth_axis_set_sk_spec_witness :
    (smooth_axis_set_sk sample_sa z_only_sk).1 ≠ 0
    ∧ (smooth_axis_set_sk sample_sa z_only_sk).2 = sample_sa :=
  ⟨(smooth_axis_set_sk_spec sample_sa z_only_sk).1.mpr ⟨rfl, rfl⟩,
   (smooth_axis_set_sk_spec sample_sa z_only_sk).2.1
     ((smooth_axis_set_sk_spec sample_sa z_only_sk).1.mpr ⟨rfl, rfl⟩)⟩

/-! ## The compact S-curve weighted integrator (spec §4.3)

The axis convolver of the smooth-axis filter calls a compact-smoother variant
of `integrate_weighted` taking a `struct scurve`; its header
(`struct smoother { double c2, c1; double hst, h2; }`) is in the repository
but the implementation is not under `src/`, so the two expansions and the
`toff² = h²` partition are modelled from the spec. -/

/-- The compact 2nd-order smoother of the S-curve variant of `integrate.h`. -/
structure smoother_sc where
  c2 : ℝ
  c1 : ℝ
  hst : ℝ
  h2 : ℝ

/-- Modelled from the spec: the compact kernel's weight polynomial
`w(u) = c1·u + c2·u²` (the spec's Expansion A lists exactly the `c1`/`c2`
contributions, matching the two-coefficient struct). -/
def smoother_sc_weight (sm : smoother_sc) (u : ℝ) : ℝ :=
  sm.c1 * u + sm.c2 * u^2

/-- Modelled from the spec: `tn_antiderivative(0, τ)` — antiderivative of
`τ⁰·s(τ)`. -/
def scurve_tn_ad0 (s : scurve) (t : ℝ) : ℝ :=
  s.c1/2*t^2 + s.c2/3*t^3 + s.c3/4*t^4 + s.c4/5*t^5 + s.c5/6*t^6 + s.c6/7*t^7

/-- Modelled from the spec: `tn_antiderivative(1, τ)` — antiderivative of
`τ¹·s(τ)`. -/
def scurve_tn_ad1 (s : scurve) (t : ℝ) : ℝ :=
  s.c1/3*t^3 + s.c2/4*t^4 + s.c3/5*t^5 + s.c4/6*t^6 + s.c5/7*t^7 + s.c6/8*t^8

/-- Modelled from the spec: `tn_antiderivative(2, τ)` — antiderivative of
`τ²·s(τ)`. -/
def scurve_tn_ad2 (s : scurve) (t : ℝ) : ℝ :=
  s.c1/4*t^4 + s.c2/5*t^5 + s.c3/6*t^6 + s.c4/7*t^7 + s.c5/8*t^8 + s.c6/9*t^9

/-- Modelled from the spec: `iwtn(sm, n, t)` — the closed-form antiderivative
of `τⁿ·w(τ)` for the compact kernel. -/
def iwtn (sm : smoother_sc) (n : ℕ) (t : ℝ) : ℝ :=
  sm.c1 / (n+2) * t^(n+2) + sm.c2 / (n+3) * t^(n+3)

/-- Modelled from the spec: `scurve_offset(Δ)` — the (constant-free)
coefficients of the polynomial `τ ↦ s(τ + Δ)`; the constant term `s(Δ)` is
returned to the caller through `p₀`. -/
def scurve_offset (s : scurve) (d : ℝ) : scurve :=
  { c1 := s.c1 + 2*s.c2*d + 3*s.c3*d^2 + 4*s.c4*d^3 + 5*s.c5*d^4 + 6*s.c6*d^5
    c2 := s.c2 + 3*s.c3*d + 6*s.c4*d^2 + 10*s.c5*d^3 + 15*s.c6*d^4
    c3 := s.c3 + 4*s.c4*d + 10*s.c5*d^2 + 20*s.c6*d^3
    c4 := s.c4 + 5*s.c5*d + 15*s.c6*d^2
    c5 := s.c5 + 6*s.c6*d
    c6 := s.c6 }

/-- Modelled from the spec: Expansion A — expand `w` around the move and
integrate termwise against `tn_antiderivative`; the `p₀` term is integrated
against `w` directly. -/
def integrate_weighted_A (sm : smoother_sc) (pos : ℝ) (s : scurve)
    (start e toff : ℝ) : ℝ :=
  sm.c2 * (scurve_tn_ad2 s e - scurve_tn_ad2 s start)
  + (2 * sm.c2 * toff + sm.c1) * (scurve_tn_ad1 s e - scurve_tn_ad1 s start)
  + (sm.c2 * toff^2 + sm.c1 * toff) * (scurve_tn_ad0 s e - scurve_tn_ad0 s start)
  + pos * (iwtn sm 0 (e + toff) - iwtn sm 0 (start + toff))

/-- Modelled from the spec: Expansion B — fold `s(-toff)` into `p₀`, shift `s`
by `-toff`, and integrate each shifted coefficient against `iwtn`. -/
def integrate_weighted_B (sm : smoother_sc) (pos : ℝ) (s : scurve)
    (start e toff : ℝ) : ℝ :=
  let pos := pos + scurve_eval s (-toff)
  let so := scurve_offset s (-toff)
  let a := start + toff
  let b := e + toff
  pos * (iwtn sm 0 b - iwtn sm 0 a)
  + so.c1 * (iwtn sm 1 b - iwtn sm 1 a)
  + so.c2 * (iwtn sm 2 b - iwtn sm 2 a)
  + so.c3 * (iwtn sm 3 b - iwtn sm 3 a)
  + so.c4 * (iwtn sm 4 b - iwtn sm 4 a)
  + so.c5 * (iwtn sm 5 b - iwtn sm 5 a)
  + so.c6 * (iwtn sm 6 b - iwtn sm 6 a)

/-- Modelled from the spec: the S-curve weighted integrator picks Expansion A
when `toff² ≤ h²` and Expansion B otherwise. -/
def integrate_weighted_sc (sm : smoother_sc) (pos : ℝ) (s : scurve)
    (start e toff : ℝ) : ℝ :=
  if toff^2 ≤ sm.h2 then integrate_weighted_A sm pos s start e toff
  else integrate_weighted_B sm pos s start e toff

/-- The two expansions are algebraically equal over the reals. -/
theorem expansion_AB_eq (sm : smoother_sc) (pos : ℝ) (s : scurve)
    (start e toff : ℝ) :
    integrate_weighted_A sm pos s start e toff
      = integrate_weighted_B sm pos s start e toff := by
  obtain ⟨w2, w1, wh, wh2⟩ := sm
  obtain ⟨d1, d2, d3, d4, d5, d6⟩ := s
  simp only [integrate_weighted_A, integrate_weighted_B, scurve_offset,
    scurve_eval, scurve_tn_ad0, scurve_tn_ad1, scurve_tn_ad2, iwtn]
  push_cast
  ring

/-- Expansion A computes the exact weighted integral of `pos + s(τ)` against
the compact kernel. -/
theorem expansion_A_eq_integral (sm : smoother_sc) (pos : ℝ) (s : scurve)
    (start e toff : ℝ) :
    integrate_weighted_A sm pos s start e toff
      = ∫ τ in start..e, (pos + scurve_eval s τ) * smoother_sc_weight sm (τ + toff) := by
  have hfun : (fun τ : ℝ => (pos + scurve_eval s τ) * smoother_sc_weight sm (τ + toff))
      = fun τ : ℝ =>
        (pos*(sm.c1*toff + sm.c2*toff^2))
        + (pos*(sm.c1 + 2*sm.c2*toff) + s.c1*(sm.c1*toff + sm.c2*toff^2))*τ
        + (pos*sm.c2 + s.c1*(sm.c1 + 2*sm.c2*toff) + s.c2*(sm.c1*toff + sm.c2*toff^2))*τ^2
        + (s.c1*sm.c2 + s.c2*(sm.c1 + 2*sm.c2*toff) + s.c3*(sm.c1*toff + sm.c2*toff^2))*τ^3
        + (s.c2*sm.c2 + s.c3*(sm.c1 + 2*sm.c2*toff) + s.c4*(sm.c1*toff + sm.c2*toff^2))*τ^4
        + (s.c3*sm.c2 + s.c4*(sm.c1 + 2*sm.c2*toff) + s.c5*(sm.c1*toff + sm.c2*toff^2))*τ^5
        + (s.c4*sm.c2 + s.c5*(sm.c1 + 2*sm.c2*toff) + s.c6*(sm.c1*toff + sm.c2*toff^2))*τ^6
        + (s.c5*sm.c2 + s.c6*(sm.c1 + 2*sm.c2*toff))*τ^7
        + (s.c6*sm.c2)*τ^8 := by
    funext τ
    simp only [scurve_eval, smoother_sc_weight]
    ring
  rw [hfun, integral_poly8]
  simp only [integrate_weighted_A, scurve_tn_ad0, scurve_tn_ad1, scurve_tn_ad2, iwtn]
  push_cast
  ring

/-- C4: the S-curve weighted integrator chooses between the two
algebraically-equivalent expansions partitioned exactly at `toff² = h²`
(Expansion A when `toff² ≤ h²`, Expansion B otherwise), and the two
expansions agree — in exact arithmetic they are equal, hence within `1e-9`
relative everywhere, in particular near `toff² = h²`. -/
theorem scurve_integrator_branch_equivalence (sm : smoother_sc) (pos : ℝ)
    (s : scurve) (start e toff : ℝ) :
    integrate_weighted_sc sm pos s start e toff
      = (if toff^2 ≤ sm.h2 then integrate_weighted_A sm pos s start e toff
         else integrate_weighted_B sm pos s start e toff)
    ∧ |integrate_weighted_A sm pos s start e toff
        - integrate_weighted_B sm pos s start e toff|
      ≤ 1e-9 * |integrate_weighted_A sm pos s start e toff| :=
  ⟨rfl, by
    rw [expansion_AB_eq, sub_self, abs_zero]
    positivity⟩

/-! ## The extruder's smoothed-position specification (claim C3)

The pressure-advanced trajectory over the move queue, in coordinates local to
the current move: previous moves occupy negative local time, following moves
local times beyond `move_t`. -/

/-- The pressure-advanced position inside one move:
`position(x) = base + s(x) + pa·s'(x)`. -/
def pa_position (m : move) (x : ℝ) : ℝ :=
  m.start_pos.x + scurve_eval m.s x + m.axes_r.y * scurve_deriv m.s x

/-- The trajectory at negative local time `x`, read from the backward
neighbour list (head = immediately preceding move). -/
def queue_pos_bwd : List move → ℝ → ℝ
  | [], _ => 0
  | p :: rest, x =>
      if -p.move_t ≤ x then pa_position p (x + p.move_t)
      else queue_pos_bwd rest (x + p.move_t)

/-- The trajectory at nonnegative local time `x`, read from the current move
and the forward neighbour list. -/
def queue_pos_fwd : move → List move → ℝ → ℝ
  | m, ms, x =>
    if x ≤ m.move_t then pa_position m x
    else
      match ms with
      | [] => 0
      | n :: rest => queue_pos_fwd n rest (x - m.move_t)

/-- The piecewise pressure-advanced trajectory of the whole queue, in
current-move-local time. -/
def queue_pos (prevs : List move) (m : move) (nexts : List move) (x : ℝ) : ℝ :=
  if x < 0 then queue_pos_bwd prevs x else queue_pos_fwd m nexts x

theorem continuous_pa_position (m : move) : Continuous (pa_position m) := by
  unfold pa_position scurve_eval scurve_deriv
  fun_prop

/-- Interval integrals ignore a finite set of disagreements. -/
theorem integral_congr_off_finite {f g : ℝ → ℝ} {a b : ℝ}
    (h : {x | x ∈ Set.uIoc a b ∧ f x ≠ g x}.Finite) :
    ∫ x in a..b, f x = ∫ x in a..b, g x := by
  apply intervalIntegral.integral_congr_ae
  rw [MeasureTheory.ae_iff]
  apply measure_mono_null _ (h.measure_zero volume)
  intro x hx
  simp only [Set.mem_setOf_eq] at hx ⊢
  push_neg at hx
  exact hx

/-- A pointwise if-then-else of interval-integrable functions over a
measurable condition is interval integrable. -/
theorem intervalIntegrable_ite {p : ℝ → Prop} [DecidablePred p]
    (hs : MeasurableSet {x | p x}) {f g : ℝ → ℝ} {a b : ℝ}
    (hf : IntervalIntegrable f volume a b) (hg : IntervalIntegrable g volume a b) :
    IntervalIntegrable (fun x => if p x then f x else g x) volume a b := by
  rw [intervalIntegrable_iff] at hf hg ⊢
  have heq : (fun x => if p x then f x else g x)
      = fun x => Set.indicator {y | p y} f x + Set.indicator ({y | p y}ᶜ) g x := by
    funext x
    by_cases h : p x <;> simp [Set.indicator_apply, h]
  rw [heq]
  exact (hf.indicator hs).add (hg.indicator hs.compl)

/-- Any continuous weight times the backward queue trajectory is interval
integrable. -/
theorem intervalIntegrable_qb (ps : List move) (F : ℝ → ℝ) (hF : Continuous F)
    (a b : ℝ) :
    IntervalIntegrable (fun x => F x * queue_pos_bwd ps x) volume a b := by
  induction ps generalizing F a b with
  | nil =>
      simp only [queue_pos_bwd, mul_zero]
      exact intervalIntegrable_const
  | cons p rest ih =>
      have h1 : IntervalIntegrable (fun x => F x * pa_position p (x + p.move_t))
          volume a b := by
        apply Continuous.intervalIntegrable
        exact hF.mul ((continuous_pa_position p).comp (by fun_prop))
      have h2 : IntervalIntegrable (fun x => F x * queue_pos_bwd rest (x + p.move_t))
          volume a b := by
        have h3 := (ih (fun y => F (y - p.move_t)) (hF.comp (by fun_prop))
          (a + p.move_t) (b + p.move_t)).comp_add_right p.move_t
        simpa using h3
      have heq : (fun x => F x * queue_pos_bwd (p :: rest) x)
          = fun x => if -p.move_t ≤ x then F x * pa_position p (x + p.move_t)
                     else F x * queue_pos_bwd rest (x + p.move_t) := by
        funext x
        by_cases h : -p.move_t ≤ x <;> simp [queue_pos_bwd, h]
      rw [heq]
      exact intervalIntegrable_ite measurableSet_Ici h1 h2

/-- Any continuous weight times the forward queue trajectory is interval
integrable. -/
theorem intervalIntegrable_qf (ms : List move) (m : move) (F : ℝ → ℝ)
    (hF : Continuous F) (a b : ℝ) :
    IntervalIntegrable (fun x => F x * queue_pos_fwd m ms x) volume a b := by
  induction ms generalizing m F a b with
  | nil =>
      have heq : (fun x => F x * queue_pos_fwd m [] x)
          = fun x => if x ≤ m.move_t then F x * pa_position m x else F x * 0 := by
        funext x
        by_cases h : x ≤ m.move_t <;> simp [queue_pos_fwd, h]
      rw [heq]
      exact intervalIntegrable_ite measurableSet_Iic
        (Continuous.intervalIntegrable (hF.mul (continuous_pa_position m)) a b)
        ((show Continuous fun x : ℝ => F x * 0 from hF.mul continuous_const).intervalIntegrable a b)
  | cons n rest ih =>
      have h1 : IntervalIntegrable (fun x => F x * pa_position m x) volume a b :=
        Continuous.intervalIntegrable (hF.mul (continuous_pa_position m)) a b
      have h2 : IntervalIntegrable (fun x => F x * queue_pos_fwd n rest (x - m.move_t))
          volume a b := by
        have h3 := (ih n (fun y => F (y + m.move_t)) (hF.comp (by fun_prop))
          (a - m.move_t) (b - m.move_t)).comp_sub_right m.move_t
        simpa using h3
      have heq : (fun x => F x * queue_pos_fwd m (n :: rest) x)
          = fun x => if x ≤ m.move_t then F x * pa_position m x
                     else F x * queue_pos_fwd n rest (x - m.move_t) := by
        funext x
        by_cases h : x ≤ m.move_t <;> simp [queue_pos_fwd, h]
      rw [heq]
      exact intervalIntegrable_ite measurableSet_Iic h1 h2

/-- Any continuous weight times the full queue trajectory is interval
integrable. -/
theorem intervalIntegrable_q (ps : List move) (m : move) (ns : List move)
    (F : ℝ → ℝ) (hF : Continuous F) (a b : ℝ) :
    IntervalIntegrable (fun x => F x * queue_pos ps m ns x) volume a b := by
  have heq : (fun x => F x * queue_pos ps m ns x)
      = fun x => if x < 0 then F x * queue_pos_bwd ps x
                 else F x * queue_pos_fwd m ns x := by
    funext x
    by_cases h : x < 0 <;> simp [queue_pos, h]
  rw [heq]
  exact intervalIntegrable_ite measurableSet_Iio
    (intervalIntegrable_qb ps F hF a b) (intervalIntegrable_qf ns m F hF a b)

theorem queue_pos_bwd_cons (p : move) (rest : List move) (x : ℝ) :
    queue_pos_bwd (p :: rest) x
      = if -p.move_t ≤ x then pa_position p (x + p.move_t)
        else queue_pos_bwd rest (x + p.move_t) := rfl

theorem queue_pos_fwd_of_le (m : move) (ms : List move) (x : ℝ) (h : x ≤ m.move_t) :
    queue_pos_fwd m ms x = pa_position m x := by
  cases ms <;> simp [queue_pos_fwd, h]

theorem queue_pos_fwd_cons (m n : move) (rest : List move) (x : ℝ) :
    queue_pos_fwd m (n :: rest) x
      = if x ≤ m.move_t then pa_position m x
        else queue_pos_fwd n rest (x - m.move_t) := by
  simp only [queue_pos_fwd]

theorem pa_prev_integrate_cons (p : move) (rest : List move) (σ : ℝ) :
    pa_prev_integrate (p :: rest) σ
      = if σ < 0 then
          pa_move_integrate p (σ + p.move_t) p.move_t (σ + p.move_t)
            + pa_prev_integrate rest (σ + p.move_t)
        else 0 := rfl

theorem pa_next_integrate_cons (m n : move) (rest : List move) (e : ℝ) :
    pa_next_integrate m (n :: rest) e
      = if m.move_t < e then
          -pa_move_integrate n 0 (e - m.move_t) (e - m.move_t)
            + pa_next_integrate n rest (e - m.move_t)
        else 0 := rfl

/-- Change of variables `y = x + c` for a `(x - σ)`-weighted integrand. -/
theorem integral_shift_weight (G : ℝ → ℝ) (c σ a b : ℝ) :
    (∫ x in a..b, (x - σ) * G (x + c))
      = ∫ y in (a + c)..(b + c), (y - (σ + c)) * G y := by
  have h : (∫ x in a..b, (fun y => (y - (σ + c)) * G y) (x + c))
      = ∫ y in (a + c)..(b + c), (y - (σ + c)) * G y :=
    intervalIntegral.integral_comp_add_right (fun y => (y - (σ + c)) * G y) c
  rw [← h]
  congr 1
  funext x
  show (x - σ) * G (x + c) = (x + c - (σ + c)) * G (x + c)
  ring

/-- Change of variables `y = x - c` for an `(E - x)`-weighted integrand. -/
theorem integral_shift_weight_rev (G : ℝ → ℝ) (c E a b : ℝ) :
    (∫ x in a..b, (E - x) * G (x - c))
      = ∫ y in (a - c)..(b - c), ((E - c) - y) * G y := by
  have h : (∫ x in a..b, (fun y => ((E - c) - y) * G y) (x - c))
      = ∫ y in (a - c)..(b - c), ((E - c) - y) * G y :=
    intervalIntegral.integral_comp_sub_right (fun y => ((E - c) - y) * G y) c
  rw [← h]
  congr 1
  funext x
  show (E - x) * G (x - c) = ((E - c) - (x - c)) * G (x - c)
  ring

/-- `pa_move_integrate` computes the exact integral of the
endpoint-offset-weighted pressure-advanced position over the clamped range. -/
theorem pa_move_integrate_eq_integral (m : move) (a b T : ℝ) :
    pa_move_integrate m a b T
      = ∫ x in (max a 0)..(min b m.move_t), (x - T) * pa_position m x := by
  have hfun : (fun x : ℝ => (x - T) * pa_position m x)
      = fun x : ℝ =>
        (-T*(m.start_pos.x + m.axes_r.y*m.s.c1))
        + ((m.start_pos.x + m.axes_r.y*m.s.c1) - T*(m.s.c1 + 2*m.axes_r.y*m.s.c2))*x
        + ((m.s.c1 + 2*m.axes_r.y*m.s.c2) - T*(m.s.c2 + 3*m.axes_r.y*m.s.c3))*x^2
        + ((m.s.c2 + 3*m.axes_r.y*m.s.c3) - T*(m.s.c3 + 4*m.axes_r.y*m.s.c4))*x^3
        + ((m.s.c3 + 4*m.axes_r.y*m.s.c4) - T*(m.s.c4 + 5*m.axes_r.y*m.s.c5))*x^4
        + ((m.s.c4 + 5*m.axes_r.y*m.s.c5) - T*(m.s.c5 + 6*m.axes_r.y*m.s.c6))*x^5
        + ((m.s.c5 + 6*m.axes_r.y*m.s.c6) - T*m.s.c6)*x^6
        + (m.s.c6)*x^7
        + (0:ℝ)*x^8 := by
    funext x
    simp only [pa_position, scurve_eval, scurve_deriv]
    ring
  rw [hfun, integral_poly8]
  simp only [pa_move_integrate, extruder_integrate, extruder_integrate_time,
    scurve_integrate, scurve_integrate_t, scurve_diff, scurve_deriv_t_integrate,
    scurve_eval]
  ring

/-- The backward walk accumulates exactly the weighted integral of the
backward trajectory over the part of the window before the current move. -/
theorem pa_prev_integrate_eq (ps : List move) (σ : ℝ)
    (hpos : ∀ p ∈ ps, 0 < p.move_t)
    (hcov : 0 ≤ σ + (ps.map move.move_t).sum) :
    pa_prev_integrate ps σ
      = ∫ x in (min σ 0)..(0:ℝ), (x - σ) * queue_pos_bwd ps x := by
  induction ps generalizing σ with
  | nil =>
      have h0 : (0:ℝ) ≤ σ := by simpa using hcov
      rw [min_eq_right h0, intervalIntegral.integral_same]
      simp [pa_prev_integrate, not_lt.mpr h0]
  | cons p rest ih =>
      rcases lt_or_le σ 0 with hσ | hσ
      · have hd : 0 < p.move_t := hpos p (List.mem_cons_self p rest)
        have hposr : ∀ q ∈ rest, 0 < q.move_t :=
          fun q hq => hpos q (List.mem_cons_of_mem p hq)
        have hcovr : 0 ≤ (σ + p.move_t) + (rest.map move.move_t).sum := by
          simp only [List.map_cons, List.sum_cons] at hcov
          linarith
        rw [pa_prev_integrate_cons, if_pos hσ, min_eq_left hσ.le,
          ih (σ + p.move_t) hposr hcovr,
          pa_move_integrate_eq_integral p (σ + p.move_t) p.move_t (σ + p.move_t),
          min_self]
        rcases le_or_lt 0 (σ + p.move_t) with hσd | hσd
        · rw [max_eq_left hσd, min_eq_right hσd, intervalIntegral.integral_same, add_zero]
          have hcongr : Set.EqOn (fun x => (x - σ) * queue_pos_bwd (p :: rest) x)
              (fun x => (x - σ) * pa_position p (x + p.move_t)) (Set.uIcc σ 0) := by
            intro x hx
            rw [Set.uIcc_of_le hσ.le] at hx
            have hxm : -p.move_t ≤ x := by
              have h1 := hx.1
              linarith
            show (x - σ) * queue_pos_bwd (p :: rest) x
              = (x - σ) * pa_position p (x + p.move_t)
            rw [queue_pos_bwd_cons, if_pos hxm]
          rw [intervalIntegral.integral_congr hcongr,
            integral_shift_weight (pa_position p) p.move_t σ σ 0, zero_add]
        · rw [max_eq_right hσd.le, min_eq_left hσd.le]
          have hw : Continuous fun x : ℝ => x - σ := by fun_prop
          have hint1 : IntervalIntegrable
              (fun x => (x - σ) * queue_pos_bwd (p :: rest) x) volume σ (-p.move_t) :=
            intervalIntegrable_qb _ _ hw _ _
          have hint2 : IntervalIntegrable
              (fun x => (x - σ) * queue_pos_bwd (p :: rest) x) volume (-p.move_t) 0 :=
            intervalIntegrable_qb _ _ hw _ _
          rw [← intervalIntegral.integral_add_adjacent_intervals hint1 hint2]
          have hp2 : (∫ x in (-p.move_t)..(0:ℝ), (x - σ) * queue_pos_bwd (p :: rest) x)
              = ∫ x in (0:ℝ)..p.move_t, (x - (σ + p.move_t)) * pa_position p x := by
            have hcongr : Set.EqOn (fun x => (x - σ) * queue_pos_bwd (p :: rest) x)
                (fun x => (x - σ) * pa_position p (x + p.move_t))
                (Set.uIcc (-p.move_t) 0) := by
              intro x hx
              rw [Set.uIcc_of_le (by linarith : -p.move_t ≤ (0:ℝ))] at hx
              show (x - σ) * queue_pos_bwd (p :: rest) x
                = (x - σ) * pa_position p (x + p.move_t)
              rw [queue_pos_bwd_cons, if_pos hx.1]
            rw [intervalIntegral.integral_congr hcongr,
              integral_shift_weight (pa_position p) p.move_t σ (-p.move_t) 0,
              neg_add_cancel, zero_add]
          have hp1 : (∫ x in σ..(-p.move_t), (x - σ) * queue_pos_bwd (p :: rest) x)
              = ∫ x in (σ + p.move_t)..(0:ℝ),
                  (x - (σ + p.move_t)) * queue_pos_bwd rest x := by
            have hcongr : (∫ x in σ..(-p.move_t), (x - σ) * queue_pos_bwd (p :: rest) x)
                = ∫ x in σ..(-p.move_t), (x - σ) * queue_pos_bwd rest (x + p.move_t) := by
              apply integral_congr_off_finite
              apply Set.Finite.subset (Set.finite_singleton (-p.move_t))
              intro x hx
              obtain ⟨hmem, hne⟩ := hx
              rw [Set.uIoc_of_le (by linarith : σ ≤ -p.move_t)] at hmem
              rw [Set.mem_singleton_iff]
              by_contra hxne
              apply hne
              show (x - σ) * queue_pos_bwd (p :: rest) x
                = (x - σ) * queue_pos_bwd rest (x + p.move_t)
              rw [queue_pos_bwd_cons,
                if_neg (not_le.mpr (lt_of_le_of_ne hmem.2 hxne))]
            rw [hcongr,
              integral_shift_weight (queue_pos_bwd rest) p.move_t σ σ (-p.move_t),
              neg_add_cancel]
          rw [hp1, hp2]
          ring
      · rw [min_eq_right hσ, intervalIntegral.integral_same]
        rw [pa_prev_integrate_cons, if_neg (not_lt.mpr hσ)]

/-- The forward walk accumulates exactly the weighted integral of the forward
trajectory over the part of the window beyond the current move. -/
theorem pa_next_integrate_eq (ms : List move) (m : move) (e : ℝ)
    (hm : 0 < m.move_t) (hpos : ∀ n ∈ ms, 0 < n.move_t)
    (hcov : e ≤ m.move_t + (ms.map move.move_t).sum) :
    pa_next_integrate m ms e
      = ∫ x in (min e m.move_t)..e, (e - x) * queue_pos_fwd m ms x := by
  induction ms generalizing m e with
  | nil =>
      have he : e ≤ m.move_t := by simpa using hcov
      rw [min_eq_left he, intervalIntegral.integral_same]
      simp [pa_next_integrate, not_lt.mpr he]
  | cons n rest ih =>
      rcases lt_or_le m.move_t e with he | he
      · have hdn : 0 < n.move_t := hpos n (List.mem_cons_self n rest)
        have hposr : ∀ q ∈ rest, 0 < q.move_t :=
          fun q hq => hpos q (List.mem_cons_of_mem n hq)
        have hcovr : e - m.move_t ≤ n.move_t + (rest.map move.move_t).sum := by
          simp only [List.map_cons, List.sum_cons] at hcov
          linarith
        rw [pa_next_integrate_cons, if_pos he,
          ih n (e - m.move_t) hdn hposr hcovr,
          pa_move_integrate_eq_integral n 0 (e - m.move_t) (e - m.move_t),
          max_self, min_eq_right he.le]
        have hqcongr : (∫ x in m.move_t..e, (e - x) * queue_pos_fwd m (n :: rest) x)
            = ∫ x in m.move_t..e, (e - x) * queue_pos_fwd n rest (x - m.move_t) := by
          apply integral_congr_off_finite
          apply Set.Finite.subset (Set.finite_singleton m.move_t)
          intro x hx
          exfalso
          obtain ⟨hmem, hne⟩ := hx
          rw [Set.uIoc_of_le he.le] at hmem
          apply hne
          show (e - x) * queue_pos_fwd m (n :: rest) x
            = (e - x) * queue_pos_fwd n rest (x - m.move_t)
          rw [queue_pos_fwd_cons, if_neg (not_le.mpr hmem.1)]
        rw [hqcongr,
          integral_shift_weight_rev (queue_pos_fwd n rest) m.move_t e m.move_t e,
          sub_self]
        have hw : Continuous fun x : ℝ => (e - m.move_t) - x := by fun_prop
        have hint1 : IntervalIntegrable
            (fun x => ((e - m.move_t) - x) * queue_pos_fwd n rest x) volume
            0 (min (e - m.move_t) n.move_t) :=
          intervalIntegrable_qf _ _ _ hw _ _
        have hint2 : IntervalIntegrable
            (fun x => ((e - m.move_t) - x) * queue_pos_fwd n rest x) volume
            (min (e - m.move_t) n.move_t) (e - m.move_t) :=
          intervalIntegrable_qf _ _ _ hw _ _
        rw [← intervalIntegral.integral_add_adjacent_intervals hint1 hint2]
        have hpiece1 : (∫ x in (0:ℝ)..(min (e - m.move_t) n.move_t),
              ((e - m.move_t) - x) * queue_pos_fwd n rest x)
            = -∫ x in (0:ℝ)..(min (e - m.move_t) n.move_t),
                (x - (e - m.move_t)) * pa_position n x := by
          rw [← intervalIntegral.integral_neg]
          apply intervalIntegral.integral_congr
          intro x hx
          rw [Set.uIcc_of_le (le_min (by linarith) hdn.le)] at hx
          show ((e - m.move_t) - x) * queue_pos_fwd n rest x
            = -((x - (e - m.move_t)) * pa_position n x)
          rw [queue_pos_fwd_of_le n rest x (le_trans hx.2 (min_le_right _ _))]
          ring
        rw [hpiece1]
      · rw [min_eq_left he, intervalIntegral.integral_same]
        rw [pa_next_integrate_cons, if_neg (not_lt.mpr he)]

/-- C3: for an extruder handle with half-smooth-time `h > 0` (and the
precomputed `h^-2`), a move `m` of a well-formed queue (positive durations,
window covered by the listed neighbours) and a move-local time `t`,
`extruder_calc_position` returns
`h⁻² · [∫_{t-h}^{t} (x-(t-h))·p_pa(x) dx + ∫_{t}^{t+h} ((t+h)-x)·p_pa(x) dx]`,
where `p_pa` is the piecewise pressure-advanced trajectory
`start_pos + s(x) + α·s'(x)` of the moves overlapping the window, accumulated
per-move by walking the queue backward and forward. -/
theorem extruder_calc_position_spec (es : extruder_stepper) (prevs : List move)
    (m : move) (nexts : List move) (t : ℝ)
    (hh : 0 < es.half_smooth_time)
    (hinv : es.inv_half_smooth_time2
      = 1 / (es.half_smooth_time * es.half_smooth_time))
    (hm : 0 < m.move_t) (hprev : ∀ p ∈ prevs, 0 < p.move_t)
    (hnext : ∀ n ∈ nexts, 0 < n.move_t)
    (ht0 : 0 ≤ t) (ht1 : t ≤ m.move_t)
    (hcov1 : 0 ≤ t - es.half_smooth_time + (prevs.map move.move_t).sum)
    (hcov2 : t + es.half_smooth_time ≤ m.move_t + (nexts.map move.move_t).sum) :
    extruder_calc_position es prevs m nexts t
      = 1 / (es.half_smooth_time * es.half_smooth_time)
        * ((∫ x in (t - es.half_smooth_time)..t,
              (x - (t - es.half_smooth_time)) * queue_pos prevs m nexts x)
          + ∫ x in t..(t + es.half_smooth_time),
              ((t + es.half_smooth_time) - x) * queue_pos prevs m nexts x) := by
  simp only [extruder_calc_position]
  rw [if_neg hh.ne', hinv]
  suffices harea : pa_range_integrate prevs m nexts t es.half_smooth_time
      = ((∫ x in (t - es.half_smooth_time)..t,
            (x - (t - es.half_smooth_time)) * queue_pos prevs m nexts x)
        + ∫ x in t..(t + es.half_smooth_time),
            ((t + es.half_smooth_time) - x) * queue_pos prevs m nexts x) by
    rw [harea]
    ring
  simp only [pa_range_integrate]
  rw [pa_prev_integrate_eq prevs (t - es.half_smooth_time) hprev hcov1,
    pa_next_integrate_eq nexts m (t + es.half_smooth_time) hm hnext hcov2,
    pa_move_integrate_eq_integral m (t - es.half_smooth_time) t
      (t - es.half_smooth_time),
    pa_move_integrate_eq_integral m t (t + es.half_smooth_time)
      (t + es.half_smooth_time),
    min_eq_left ht1, max_eq_left ht0]
  have hI1 : (∫ x in (t - es.half_smooth_time)..t,
        (x - (t - es.half_smooth_time)) * queue_pos prevs m nexts x)
      = (∫ x in (max (t - es.half_smooth_time) 0)..t,
          (x - (t - es.half_smooth_time)) * pa_position m x)
        + ∫ x in (min (t - es.half_smooth_time) 0)..(0:ℝ),
            (x - (t - es.half_smooth_time)) * queue_pos_bwd prevs x := by
    rcases le_or_lt 0 (t - es.half_smooth_time) with hth | hth
    · rw [max_eq_left hth, min_eq_right hth, intervalIntegral.integral_same, add_zero]
      apply intervalIntegral.integral_congr
      intro x hx
      rw [Set.uIcc_of_le (by linarith : t - es.half_smooth_time ≤ t)] at hx
      show (x - (t - es.half_smooth_time)) * queue_pos prevs m nexts x
        = (x - (t - es.half_smooth_time)) * pa_position m x
      simp only [queue_pos]
      rw [if_neg (not_lt.mpr (le_trans hth hx.1)),
        queue_pos_fwd_of_le m nexts x (le_trans hx.2 ht1)]
    · rw [max_eq_right hth.le, min_eq_left hth.le]
      have hw : Continuous fun x : ℝ => x - (t - es.half_smooth_time) := by fun_prop
      have hint1 : IntervalIntegrable
          (fun x => (x - (t - es.half_smooth_time)) * queue_pos prevs m nexts x)
          volume (t - es.half_smooth_time) 0 :=
        intervalIntegrable_q _ _ _ _ hw _ _
      have hint2 : IntervalIntegrable
          (fun x => (x - (t - es.half_smooth_time)) * queue_pos prevs m nexts x)
          volume 0 t :=
        intervalIntegrable_q _ _ _ _ hw _ _
      rw [← intervalIntegral.integral_add_adjacent_intervals hint1 hint2]
      have hA : (∫ x in (t - es.half_smooth_time)..(0:ℝ),
            (x - (t - es.half_smooth_time)) * queue_pos prevs m nexts x)
          = ∫ x in (t - es.half_smooth_time)..(0:ℝ),
              (x - (t - es.half_smooth_time)) * queue_pos_bwd prevs x := by
        apply integral_congr_off_finite
        apply Set.Finite.subset (Set.finite_singleton (0:ℝ))
        intro x hx
        obtain ⟨hmem, hne⟩ := hx
        rw [Set.uIoc_of_le hth.le] at hmem
        rw [Set.mem_singleton_iff]
        by_contra hxne
        apply hne
        show (x - (t - es.half_smooth_time)) * queue_pos prevs m nexts x
          = (x - (t - es.half_smooth_time)) * queue_pos_bwd prevs x
        simp only [queue_pos]
        rw [if_pos (lt_of_le_of_ne hmem.2 hxne)]
      have hB : (∫ x in (0:ℝ)..t,
            (x - (t - es.half_smooth_time)) * queue_pos prevs m nexts x)
          = ∫ x in (0:ℝ)..t,
              (x - (t - es.half_smooth_time)) * pa_position m x := by
        apply intervalIntegral.integral_congr
        intro x hx
        rw [Set.uIcc_of_le ht0] at hx
        show (x - (t - es.half_smooth_time)) * queue_pos prevs m nexts x
          = (x - (t - es.half_smooth_time)) * pa_position m x
        simp only [queue_pos]
        rw [if_neg (not_lt.mpr hx.1),
          queue_pos_fwd_of_le m nexts x (le_trans hx.2 ht1)]
      rw [hA, hB]
      ring
  have hc2a : t ≤ min (t + es.half_smooth_time) m.move_t :=
    le_min (by linarith) ht1
  have hI2 : (∫ x in t..(t + es.half_smooth_time),
        ((t + es.half_smooth_time) - x) * queue_pos prevs m nexts x)
      = (-∫ x in t..(min (t + es.half_smooth_time) m.move_t),
          (x - (t + es.half_smooth_time)) * pa_position m x)
        + ∫ x in (min (t + es.half_smooth_time) m.move_t)..(t + es.half_smooth_time),
            ((t + es.half_smooth_time) - x) * queue_pos_fwd m nexts x := by
    have hc2b : min (t + es.half_smooth_time) m.move_t ≤ t + es.half_smooth_time :=
      min_le_left _ _
    have hw : Continuous fun x : ℝ => (t + es.half_smooth_time) - x := by fun_prop
    have hint1 : IntervalIntegrable
        (fun x => ((t + es.half_smooth_time) - x) * queue_pos prevs m nexts x)
        volume t (min (t + es.half_smooth_time) m.move_t) :=
      intervalIntegrable_q _ _ _ _ hw _ _
    have hint2 : IntervalIntegrable
        (fun x => ((t + es.half_smooth_time) - x) * queue_pos prevs m nexts x)
        volume (min (t + es.half_smooth_time) m.move_t) (t + es.half_smooth_time) :=
      intervalIntegrable_q _ _ _ _ hw _ _
    rw [← intervalIntegral.integral_add_adjacent_intervals hint1 hint2]
    have hA : (∫ x in t..(min (t + es.half_smooth_time) m.move_t),
          ((t + es.half_smooth_time) - x) * queue_pos prevs m nexts x)
        = -∫ x in t..(min (t + es.half_smooth_time) m.move_t),
            (x - (t + es.half_smooth_time)) * pa_position m x := by
      rw [← intervalIntegral.integral_neg]
      apply intervalIntegral.integral_congr
      intro x hx
      rw [Set.uIcc_of_le hc2a] at hx
      show ((t + es.half_smooth_time) - x) * queue_pos prevs m nexts x
        = -((x - (t + es.half_smooth_time)) * pa_position m x)
      simp only [queue_pos]
      rw [if_neg (not_lt.mpr (le_trans ht0 hx.1)),
        queue_pos_fwd_of_le m nexts x (le_trans hx.2 (min_le_right _ _))]
      ring
    have hB : (∫ x in (min (t + es.half_smooth_time) m.move_t)..(t + es.half_smooth_time),
          ((t + es.half_smooth_time) - x) * queue_pos prevs m nexts x)
        = ∫ x in (min (t + es.half_smooth_time) m.move_t)..(t + es.half_smooth_time),
            ((t + es.half_smooth_time) - x) * queue_pos_fwd m nexts x := by
      apply intervalIntegral.integral_congr
      intro x hx
      rw [Set.uIcc_of_le hc2b] at hx
      show ((t + es.half_smooth_time) - x) * queue_pos prevs m nexts x
        = ((t + es.half_smooth_time) - x) * queue_pos_fwd m nexts x
      simp only [queue_pos]
      rw [if_neg (not_lt.mpr (le_trans (le_trans ht0 hc2a) hx.1))]
    rw [hA, hB]
  rw [hI1, hI2]
  ring

/-- Witness for C3: single move covering the whole window (`h = 1`, `t = 2`,
move duration 10). -/
theorem extruder_calc_position_spec_witness :
    extruder_calc_position unit_extruder [] quad_move [] 2
      = 1 / (unit_extruder.half_smooth_time * unit_extruder.half_smooth_time)
        * ((∫ x in (2 - unit_extruder.half_smooth_time)..(2:ℝ),
              (x - (2 - unit_extruder.half_smooth_time)) * queue_pos [] quad_move [] x)
          + ∫ x in (2:ℝ)..(2 + unit_extruder.half_smooth_time),
              ((2 + unit_extruder.half_smooth_time) - x) * queue_pos [] quad_move [] x) :=
  extruder_calc_position_spec unit_extruder [] quad_move [] 2
    (by norm_num [unit_extruder]) (by norm_num [unit_extruder])
    (by norm_num [quad_move]) (by simp) (by simp)
    (by norm_num) (by norm_num [quad_move])
    (by norm_num [unit_extruder]) (by norm_num [unit_extruder, quad_move])
